import Mathlib

/-!
# local-log4j-vuln-scanner: archive rewriter, remediation transaction, inspector, walker

A shallow embedding of `patching/patching.go` (`patch`, `discardZip`, `backupFile`,
`PatchAndSwap`) and of `scanner/main.go` (`handleJar`, `excludeFlags.Has`, the
`filepath.Walk` callback of `main`), with the properties of the specification stated
over it.

Modelling conventions
* Strings are Lean strings; the path functions only look at the ASCII characters
  `/` and `.`, so working on characters instead of bytes changes nothing.
* The content of a file or of an archive member is a `Data` value: the bytes are
  represented by what they decode to (a ZIP container is the list of its members).
* The file system is a map from path strings to regular files. Symbolic links, hard
  links and directories are not represented; two different path strings are two
  different files.
* Every library call that can fail takes its result from a fault record: `none` is
  success, `some msg` is the error it returns.
* `classify` is the external `filter.IsVulnerableClass`; it is a parameter everywhere.
-/

namespace Log4jScanner

/-! ## Strings and paths (Go `strings`, `strconv`, `path/filepath` on Unix) -/

/-- Go `strings.TrimLeft(s, cutset)`: drop the leading characters that occur in `cutset`. -/
def TrimLeft (s cutset : String) : String :=
  ⟨s.toList.dropWhile (fun c => cutset.toList.contains c)⟩

/-- Go `strings.ReplaceAll(s, old, new)` for a one-character `old` and `new`
(the only use in the source is `ReplaceAll(_, "/", "_")`). -/
def ReplaceAll (s : String) (old new : Char) : String :=
  ⟨s.toList.map (fun c => if c = old then new else c)⟩

/-- Go `strconv.FormatInt(i, 10)`. -/
def FormatInt (i : Int) : String := toString i

/-- Go `strings.ToLower`, on the ASCII letters. No non-ASCII character lowers to one of
the letters of `.class`, `.jar`, `.war`, `.ear`, so the comparisons made by the source
come out the same. -/
def ToLower (s : String) : String := ⟨s.toList.map Char.toLower⟩

/-- The backwards scan of Go `filepath.Ext`: `rev` is the part of the path still to be
scanned, read from its end, and `acc` the characters already passed. -/
def extScan : List Char → List Char → List Char
  | [], _ => []
  | c :: rev, acc =>
    if c = '/' then [] else if c = '.' then '.' :: acc else extScan rev (c :: acc)

/-- Go `filepath.Ext(path)`: the suffix starting at the last dot of the last path
element, or the empty string. -/
def Ext (path : String) : String := ⟨extScan path.toList.reverse []⟩

/-- The inner loop of the `..` case of `filepath.Clean`: `out.w--` has been done and
`last` is the character at index `out.w`; keep dropping while `out.w > dotdot` and that
character is not a separator. The buffer is held in reverse. -/
def cleanBacktrack (dotdot : Nat) : List Char → Char → List Char
  | [], _ => []
  | c :: out, last =>
    if dotdot < (c :: out).length ∧ last ≠ '/' then cleanBacktrack dotdot out c else c :: out

/-- The main loop of Go `filepath.Clean`. `path` is the unread input, `out` the output
buffer in reverse, `dotdot` the index below which `..` must not backtrack. Every
iteration consumes at least one character, so `path.length` iterations are enough. -/
def cleanLoop (rooted : Bool) : Nat → List Char → List Char → Nat → List Char
  | 0, _, out, _ => out
  | _ + 1, [], out, _ => out
  | fuel + 1, c :: t, out, dotdot =>
    if c = '/' then
      cleanLoop rooted fuel t out dotdot
    else if c = '.' ∧ (t = [] ∨ t.head? = some '/') then
      cleanLoop rooted fuel t out dotdot
    else if c = '.' ∧ t.head? = some '.' ∧ (t.tail = [] ∨ t.tail.head? = some '/') then
      match out with
      | o :: out1 =>
        if dotdot < (o :: out1).length then
          cleanLoop rooted fuel t.tail (cleanBacktrack dotdot out1 o) dotdot
        else if rooted then
          cleanLoop rooted fuel t.tail out dotdot
        else
          cleanLoop rooted fuel t.tail ('.' :: '.' :: '/' :: out) (out.length + 3)
      | [] =>
        if rooted then cleanLoop rooted fuel t.tail out dotdot
        else cleanLoop rooted fuel t.tail ['.', '.'] 2
    else
      let out1 :=
        if (rooted ∧ out.length ≠ 1) ∨ (¬ rooted ∧ out.length ≠ 0) then '/' :: out else out
      cleanLoop rooted fuel ((c :: t).dropWhile (fun x => x ≠ '/'))
        (((c :: t).takeWhile (fun x => x ≠ '/')).reverse ++ out1) dotdot

/-- Go `filepath.Clean(path)` on Unix. -/
def Clean (path : String) : String :=
  match path.toList with
  | [] => "."
  | c :: t =>
    let out :=
      if c = '/' then cleanLoop true (t.length + 1) t ['/'] 1
      else cleanLoop false (t.length + 2) (c :: t) [] 0
    if out = [] then "." else ⟨out.reverse⟩

/-- Go `filepath.Join(a, b)`: the elements from the first non-empty one on are joined
with `/` and cleaned; all empty gives the empty string. -/
def Join (a b : String) : String :=
  if a ≠ "" then Clean (a ++ "/" ++ b)
  else if b ≠ "" then Clean b
  else ""

/-! ## Data model -/

/-- The content of a file or of an archive member, represented by what its bytes are. -/
inductive Data where
  /-- Bytes that are not a ZIP container. -/
  | raw (bytes : List Nat)
  /-- A complete ZIP container: its members (name, content) in directory order. -/
  | zip (members : List (String × Data))
  /-- The output of a ZIP writer that was never finalised: the members handed to the
  writer so far. The writer buffers, so how many of their bytes have reached the file
  is not represented; there is no central directory and it does not open as a ZIP. -/
  | unfinished (members : List (String × Data))
  /-- A one-record tar archive: header name, header mode, and the body. The header
  size is the length of the body. -/
  | tar (name : String) (mode : Nat) (body : Data)
  /-- What a failed `WriteFile` leaves behind. -/
  | torn

/-- A regular file: content, owner, group and mode bits. -/
structure File where
  data : Data
  uid : Nat
  gid : Nat
  mode : Nat

/-- The file system: what regular file, if any, each path names. -/
abbrev FS := String → Option File

/-- The file system with `path` naming `f`. -/
def FS.set (fs : FS) (path : String) (f : File) : FS :=
  fun q => if q = path then some f else fs q

/-- The file system with `path` naming nothing. -/
def FS.erase (fs : FS) (path : String) : FS :=
  fun q => if q = path then none else fs q

/-- The identity of the running process, as far as file creation depends on it. -/
structure Proc where
  uid : Nat
  gid : Nat
  umask : Nat

/-- How a Go function call ends. -/
inductive Outcome where
  /-- It returned; `none` is a nil error. -/
  | returned (err : Option String)
  /-- It called `os.Exit(code)`: the process is gone, deferred functions do not run. -/
  | exited (code : Nat)
  /-- A run-time panic unwinds the stack (deferred functions run) and, as nothing
  recovers, ends the process. -/
  | panicked

/-- The external classifier `filter.IsVulnerableClass(content, name, examineV1)`:
the empty string means not vulnerable. -/
abbrev Classifier := Data → String → Bool → String

/-! ## `patching.patch` and `patching.discardZip` -/

/-- The calls of `log` in `patch` and `discardZip`, by the place they are made at. -/
inductive PatchLog where
  /-- The line `open (read)` after a failed `zip.OpenReader`. -/
  | openSource
  /-- The line `open (write): ` after a failed `os.Create`. -/
  | createDest
  /-- The line `open (read): ` after a failed `member.Open()`. -/
  | memberOpen
  /-- The line `read: ` after a failed read of a member. -/
  | memberRead
  /-- The line `open (write): ` after a failed `zw.Create`. -/
  | zwCreate
  /-- The line `write: ` after a failed write of an output entry. -/
  | zwWrite
  /-- The line `Removing output file` at the start of `discardZip`. -/
  | discard
  /-- The line `finalize:` after a failed final `zw.Close()`. -/
  | finalize

/-- The failures the library calls made by `patch` can report. The per-member ones are
indexed by the position of the member in the source archive. -/
structure PatchFaults where
  /-- The write to stderr made by `log` at each place. -/
  log : PatchLog → Option String
  /-- The call `zip.OpenReader(source)`. -/
  openReader : Option String
  /-- The call `os.Create(dest)`. -/
  create : Option String
  /-- The call `member.Open()`. -/
  memberOpen : Nat → Option String
  /-- The call `io.Copy(buf, r)`. -/
  memberRead : Nat → Option String
  /-- The call `zw.Create(member.Name)`. -/
  zwCreate : Nat → Option String
  /-- The call `io.Copy(w, buf)`. -/
  zwWrite : Nat → Option String
  /-- The call `zw.Close()` inside `discardZip`. -/
  discardZwClose : Option String
  /-- The call `of.Close()` inside `discardZip`. -/
  discardOfClose : Option String
  /-- The call `zw.Close()` after the loop. -/
  zwClose : Option String
  /-- The call `of.Close()` after the loop. -/
  ofClose : Option String

/-- No library call made by `patch` fails. -/
def noPatchFaults : PatchFaults :=
  { log := fun _ => none, openReader := none, create := none,
    memberOpen := fun _ => none, memberRead := fun _ => none,
    zwCreate := fun _ => none, zwWrite := fun _ => none,
    discardZwClose := none, discardOfClose := none,
    zwClose := none, ofClose := none }

/-- Go `log(a...)` of package `patching`: a line is written to stderr, and when that
write fails `log` panics. The result tells whether it panicked. -/
def log (fault : Option String) : Bool := fault.isSome

/-- What `zip.OpenReader(path)` yields: the members, or an error when the call fails,
the file is missing, or the content is not a complete ZIP container. -/
def openZip (fault : Option String) (file : Option File) (path : String) :
    Except String (List (String × Data)) :=
  match fault with
  | some e => .error e
  | none =>
    match file with
    | some ⟨.zip members, _, _, _⟩ => .ok members
    | some _ => .error "zip: not a valid zip file"
    | none => .error ("open " ++ path ++ ": no such file or directory")

/-- What `os.Create(path)` does to the file system: an existing file is truncated and
keeps owner and mode, a new one is created with mode `0666 &^ umask` and the owner of
the process. The content is that of a ZIP writer that has written nothing yet. -/
def createFile (proc : Proc) (fs : FS) (path : String) : FS :=
  match fs path with
  | some f => fs.set path { f with data := .unfinished [] }
  | none =>
    fs.set path { data := .unfinished [], uid := proc.uid, gid := proc.gid,
                  mode := 0o666 - (0o666 &&& proc.umask) }

/-- The file system with the content of `path` replaced. -/
def setData (fs : FS) (path : String) (d : Data) : FS :=
  match fs path with
  | some f => fs.set path { f with data := d }
  | none => fs

/-- What a successful `zw.Close()` makes of the output: the central directory is
written and the container is complete. -/
def finalised : Data → Data
  | .unfinished written => .zip written
  | d => d

/-- Go `discardZip(dest, of, zw)`: log, close the ZIP writer, then the file; the first
error is returned. `written` are the members written so far; the second component is
the content of dest afterwards (closing the writer finalises the container). The file
is not removed. -/
def discardZip (flt : PatchFaults) (written : List (String × Data)) : Outcome × Data :=
  if log (flt.log .discard) then (.panicked, .unfinished written)
  else
    match flt.discardZwClose with
    | some e => (.returned (some e), .unfinished written)
    | none =>
      match flt.discardOfClose with
      | some e => (.returned (some e), .zip written)
      | none => (.returned none, .zip written)

/-- The tail `_ = discardZip(dest, of, zw); return err` of the failure branches of
`patch`. -/
def discardAndReturn (flt : PatchFaults) (written : List (String × Data)) (err : String) :
    Outcome × Data :=
  match discardZip flt written with
  | (.panicked, d) => (.panicked, d)
  | (_, d) => (.returned (some err), d)

/-- The `for _, member := range zr.File` loop of `patch`. `i` is the index of the next
member, `written` the members written to dest so far. The result is how the loop was
left (`none`: it ran to the end) and the content of dest at that point.

Every failure branch starts with a call of `log`, which can panic. After a failed
`member.Open()` the source returns only when `discardZip` fails; when it succeeds the
loop body goes on to `io.Copy(buf, r)` with the nil reader `r`, which panics. -/
def patchLoop (classify : Classifier) (examineV1 : Bool) (flt : PatchFaults) :
    List (String × Data) → Nat → List (String × Data) → Option Outcome × Data
  | [], _, written => (none, .unfinished written)
  | (name, content) :: rest, i, written =>
    match flt.memberOpen i with
    | some _ =>
      if log (flt.log .memberOpen) then (some .panicked, .unfinished written)
      else
        match discardZip flt written with
        | (.returned (some e), d) => (some (.returned (some e)), d)
        | (_, d) => (some .panicked, d)
    | none =>
      match flt.memberRead i with
      | some e =>
        if log (flt.log .memberRead) then (some .panicked, .unfinished written)
        else (some (discardAndReturn flt written e).1, (discardAndReturn flt written e).2)
      | none =>
        if classify content name examineV1 ≠ "" then
          patchLoop classify examineV1 flt rest (i + 1) written
        else
          match flt.zwCreate i with
          | some e =>
            if log (flt.log .zwCreate) then (some .panicked, .unfinished written)
            else (some (discardAndReturn flt written e).1, (discardAndReturn flt written e).2)
          | none =>
            match flt.zwWrite i with
            | some e =>
              if log (flt.log .zwWrite) then (some .panicked, .unfinished written)
              else (some (discardAndReturn flt written e).1, (discardAndReturn flt written e).2)
            | none =>
              patchLoop classify examineV1 flt rest (i + 1) (written ++ [(name, content)])

/-- Go `patch(source, dest, examineV1)` as a transition of the file system.
The model reads the members before dest is created, which is what the code does as long
as dest is not the source itself (the one caller passes `source + ".new"`). -/
def patch (classify : Classifier) (flt : PatchFaults) (proc : Proc) (fs : FS)
    (source dest : String) (examineV1 : Bool) : Outcome × FS :=
  match openZip flt.openReader (fs source) source with
  | .error _ => if log (flt.log .openSource) then (.panicked, fs) else (.exited 1, fs)
  | .ok members =>
    match flt.create with
    | some e => if log (flt.log .createDest) then (.panicked, fs) else (.returned (some e), fs)
    | none =>
      let fs1 := createFile proc fs dest
      match patchLoop classify examineV1 flt members 0 [] with
      | (some out, d) => (out, setData fs1 dest d)
      | (none, d) =>
        match flt.zwClose with
        | none => (.returned flt.ofClose, setData fs1 dest (finalised d))
        | some _ =>
          if log (flt.log .finalize) then (.panicked, setData fs1 dest d)
          else (.returned flt.ofClose, setData fs1 dest d)

/-! ## `patching.backupFile` and `patching.PatchAndSwap` -/

/-- The calls of `log` in `PatchAndSwap`, by the place they are made at. -/
inductive SwapLog where
  /-- The line `Removing backup file at` of the deferred function. -/
  | removingBackup
  /-- The line `Backing up .. into .. as ..`. -/
  | backingUp
  /-- The line `Patching .. into ..`. -/
  | patching
  /-- The line `Replacing source .. with patched version from ..`. -/
  | replacing
  /-- The line `Patching done for ..`. -/
  | done

/-- The failures the library calls made by `PatchAndSwap` and `backupFile` can report. -/
structure SwapFaults where
  /-- The write to stderr made by `log` at each place of `PatchAndSwap`. -/
  log : SwapLog → Option String
  /-- The call `os.Stat(source)` in `PatchAndSwap`. -/
  stat : Option String
  /-- The call `os.MkdirAll(backupDir, 0755)`. -/
  mkdirAll : Option String
  /-- The call `os.Stat(src)` in `backupFile`. -/
  backupStat : Option String
  /-- The call `tw.WriteHeader(hdr)`. -/
  tarHeader : Option String
  /-- The call `ioutil.ReadFile(src)`. -/
  readFile : Option String
  /-- The call `tw.Write(srcBytes)`. -/
  tarWrite : Option String
  /-- The call `tw.Close()`. -/
  tarClose : Option String
  /-- The call `ioutil.WriteFile(dest, ..)` failing to open or create the file. -/
  writeFileOpen : Option String
  /-- The call `ioutil.WriteFile(dest, ..)` failing after the file was created or truncated. -/
  writeFileWrite : Option String
  /-- The calls made by `patch`. -/
  patch : PatchFaults
  /-- The call `os.Remove(backup)` after a failed `patch`. -/
  removeAfterPatch : Option String
  /-- The call `os.Chown(dest, uid, gid)`. -/
  chown : Option String
  /-- The call `os.Chmod(dest, mode)`. -/
  chmod : Option String
  /-- The call `os.Rename(dest, source)`. -/
  rename : Option String
  /-- The call `os.Remove(backup)` after a failed rename. -/
  removeAfterRename : Option String
  /-- The call `os.Remove(backup)` in the deferred function. -/
  removeDeferred : Option String

/-- No library call of the transaction fails. -/
def noSwapFaults : SwapFaults :=
  { log := fun _ => none, stat := none, mkdirAll := none, backupStat := none, tarHeader := none,
    readFile := none, tarWrite := none, tarClose := none, writeFileOpen := none,
    writeFileWrite := none, patch := noPatchFaults, removeAfterPatch := none,
    chown := none, chmod := none, rename := none, removeAfterRename := none,
    removeDeferred := none }

/-- Go `os.Stat(path)`: the file named by `path`, with its owner and mode. -/
def stat (fault : Option String) (fs : FS) (path : String) : Except String File :=
  match fault with
  | some e => .error e
  | none =>
    match fs path with
    | some f => .ok f
    | none => .error ("stat " ++ path ++ ": no such file or directory")

/-- Go `os.Remove(path)` with its error discarded, as at every call in the source:
when the call fails the file system is as before. -/
def remove (fault : Option String) (fs : FS) (path : String) : FS :=
  match fault with
  | some _ => fs
  | none => fs.erase path

/-- Go `ioutil.WriteFile(path, d, perm)`: an existing file is truncated and keeps owner
and mode, a new one gets `perm &^ umask`. -/
def writeFile (openFault writeFault : Option String) (proc : Proc) (fs : FS)
    (path : String) (d : Data) (perm : Nat) : Option String × FS :=
  match openFault with
  | some e => (some e, fs)
  | none =>
    let base : File :=
      match fs path with
      | some f => f
      | none => { data := .torn, uid := proc.uid, gid := proc.gid,
                  mode := perm - (perm &&& proc.umask) }
    match writeFault with
    | some e => (some e, fs.set path { base with data := .torn })
    | none => (none, fs.set path { base with data := d })

/-- Go `os.Chown(path, uid, gid)`. -/
def chown (fault : Option String) (fs : FS) (path : String) (uid gid : Nat) :
    Option String × FS :=
  match fault with
  | some e => (some e, fs)
  | none =>
    match fs path with
    | some f => (none, fs.set path { f with uid := uid, gid := gid })
    | none => (some ("chown " ++ path ++ ": no such file or directory"), fs)

/-- Go `os.Chmod(path, mode)`. Files of the model are regular files, whose `FileMode`
is made of the bits `Chmod` sets. -/
def chmod (fault : Option String) (fs : FS) (path : String) (mode : Nat) :
    Option String × FS :=
  match fault with
  | some e => (some e, fs)
  | none =>
    match fs path with
    | some f => (none, fs.set path { f with mode := mode })
    | none => (some ("chmod " ++ path ++ ": no such file or directory"), fs)

/-- Go `os.Rename(old, new)`: `new` names what `old` named, `old` names nothing. -/
def rename (fault : Option String) (fs : FS) (old new : String) : Option String × FS :=
  match fault with
  | some e => (some e, fs)
  | none =>
    match fs old with
    | some f => (none, (fs.erase old).set new f)
    | none => (some ("rename " ++ old ++ " " ++ new ++ ": no such file or directory"), fs)

/-- Go `backupFile(src, dest)`: stat the source, build a one-record tar archive
(name, mode, size, content) in memory, write it to `dest` with mode 0600. -/
def backupFile (flt : SwapFaults) (proc : Proc) (fs : FS) (src dest : String) :
    Option String × FS :=
  match stat flt.backupStat fs src with
  | .error e => (some ("failed to stat source file: " ++ e), fs)
  | .ok fileInfo =>
    match flt.tarHeader with
    | some e => (some ("failed to write source file header" ++ e), fs)
    | none =>
      match flt.readFile, fs src with
      | some e, _ => (some ("failed to read source file" ++ e), fs)
      | none, none =>
        (some ("failed to read source file" ++ "open " ++ src ++ ": no such file or directory"),
          fs)
      | none, some f =>
        match flt.tarWrite with
        | some e => (some ("failed to write source to tar archive" ++ e), fs)
        | none =>
          match flt.tarClose with
          | some e => (some ("failed to close tar archive" ++ e), fs)
          | none =>
            writeFile flt.writeFileOpen flt.writeFileWrite proc fs dest
              (.tar src fileInfo.mode f.data) 0o600

/-- The local `sourceWithLeadingDotsAndSlashesTrimed` of `PatchAndSwap`. -/
def sourceWithLeadingDotsAndSlashesTrimed (source : String) : String :=
  TrimLeft (TrimLeft (TrimLeft source "..") ".") "/"

/-- The local `backupFileName` of `PatchAndSwap`; `now` is `time.Now().Unix()`. -/
def backupFileName (source : String) (now : Int) : String :=
  ReplaceAll (sourceWithLeadingDotsAndSlashesTrimed source) '/' '_'
    ++ "-" ++ FormatInt now ++ ".tar"

/-- The local `backup` of `PatchAndSwap`. -/
def backupPath (source backupDir : String) (now : Int) : String :=
  Join backupDir (backupFileName source now)

/-- The body of `PatchAndSwap` up to the point where it is left: how it is left, the
file system then, and the value of the local `success`. Each call of `log` can panic.
On Unix the type assertion on `sourceFileInfo.Sys()` always holds, so that branch is
not represented. -/
def patchAndSwapBody (classify : Classifier) (flt : SwapFaults) (proc : Proc) (now : Int)
    (fs : FS) (source backupDir : String) : Outcome × FS × Bool :=
  let backup := backupPath source backupDir now
  let dest := source ++ ".new"
  match stat flt.stat fs source with
  | .error e => (.returned (some ("failed stat-ing source file: " ++ e)), fs, false)
  | .ok sourceFileInfo =>
    if log (flt.log .backingUp) then (.panicked, fs, false)
    else
    match flt.mkdirAll with
    | some e => (.returned (some ("failed creating backup dir: " ++ e)), fs, false)
    | none =>
      match backupFile flt proc fs source backup with
      | (some e, fs1) => (.returned (some ("failed source backup: " ++ e)), fs1, false)
      | (none, fs1) =>
        if log (flt.log .patching) then (.panicked, fs1, false)
        else
        match patch classify flt.patch proc fs1 source dest true with
        | (.returned (some e), fs2) =>
          (.returned (some ("failed patching source: " ++ e)),
            remove flt.removeAfterPatch fs2 backup, false)
        | (.exited c, fs2) => (.exited c, fs2, false)
        | (.panicked, fs2) => (.panicked, fs2, false)
        | (.returned none, fs2) =>
          match chown flt.chown fs2 dest sourceFileInfo.uid sourceFileInfo.gid with
          | (some e, fs3) =>
            (.returned (some ("failed setting file owner on target: " ++ e)), fs3, false)
          | (none, fs3) =>
            match chmod flt.chmod fs3 dest sourceFileInfo.mode with
            | (some e, fs4) =>
              (.returned (some ("failed setting file mode on target: " ++ e)), fs4, false)
            | (none, fs4) =>
              if log (flt.log .replacing) then (.panicked, fs4, false)
              else
              match rename flt.rename fs4 dest source with
              | (some e, fs5) =>
                (.returned (some ("failed to stage patched file : " ++ e)),
                  remove flt.removeAfterRename fs5 backup, false)
              | (none, fs5) =>
                if log (flt.log .done) then (.panicked, fs5, true)
                else (.returned none, fs5, true)

/-- Go `PatchAndSwap(source, backupDir)`: the body, then the deferred function, which
unless `success` was set logs and removes the backup. The deferred function runs when
the body returns or panics, not when the process exits inside `patch`; when its call of
`log` panics the backup is not removed and the function ends in that panic. -/
def PatchAndSwap (classify : Classifier) (flt : SwapFaults) (proc : Proc) (now : Int)
    (fs : FS) (source backupDir : String) : Outcome × FS :=
  match patchAndSwapBody classify flt proc now fs source backupDir with
  | (.exited c, fs1, _) => (.exited c, fs1)
  | (out, fs1, success) =>
    if success then (out, fs1)
    else if log (flt.log .removingBackup) then (.panicked, fs1)
    else (out, remove flt.removeDeferred fs1 (backupPath source backupDir now))

/-! ## `scanner`: `handleJar`, `excludeFlags.Has` and the walk of `main` -/

/-- The command-line flags read by `handleJar` and by the walk. -/
structure Config where
  verbose : Bool
  ignoreV1 : Bool
  applyPatches : Bool
  backupDir : String
  excludes : List String

/-- The failures the library calls made by `handleJar` can report, by the path of the
archive being inspected and the index of the member. -/
structure ScanFaults where
  /-- The call `zip.NewReader(ra, sz)`. -/
  newReader : String → Option String
  /-- The call `file.Open()`. -/
  memberOpen : String → Nat → Option String
  /-- The call `io.Copy(buf, fr)` and `ioutil.ReadAll(fr)`: the error, and whether the
  bytes read before it are the whole content (an error found at the end of the member,
  such as a checksum mismatch). -/
  memberRead : String → Nat → Option (String × Bool)

/-- No library call made by `handleJar` fails. -/
def noScanFaults : ScanFaults :=
  { newReader := fun _ => none, memberOpen := fun _ _ => none,
    memberRead := fun _ _ => none }

/-- What a scan does that can be observed from outside, in order. -/
inductive Event where
  /-- The verbose line `Inspecting <path>...`. -/
  | inspecting (path : String)
  /-- The diagnostic `can't open JAR file: <path>`. -/
  | cantOpenJar (path : String)
  /-- The diagnostic `can't open JAR file member for reading: <path> (<name>)`. -/
  | cantOpenMember (path name : String)
  /-- The diagnostic `can't read JAR file member: <path> (<name>)`. -/
  | cantReadMember (path name : String)
  /-- The line `indicator for vulnerable component found in <path> (<name>): <desc>`. -/
  | finding (path name desc : String)
  /-- The call `patching.PatchAndSwap(path, backupDir)`. -/
  | patchAndSwap (path backupDir : String)
  /-- The line `Failed to patch Jar at <path> : <err>`, followed by `os.Exit(1)`. -/
  | failedToPatch (path err : String)
  /-- The line `Patched Jar : <path>`. -/
  | patched (path : String)
  /-- The diagnostic of the walk callback for an entry it was handed with an error. -/
  | walkError (path err : String)
  /-- The diagnostic `can't open <path>` of the walk callback. -/
  | cantOpen (path : String)
  /-- The diagnostic `can't seek in <path>` of the walk callback. -/
  | cantSeek (path : String)
  deriving DecidableEq, Repr

/-- A stretch of a scan: the events, the state of the world afterwards (whatever
`PatchAndSwap` acts on), and whether the process has ended in it. -/
structure Run (σ : Type) where
  events : List Event
  state : σ
  exited : Bool

/-- Sequencing: the events of `r` put after `evs`. -/
def Run.after {σ : Type} (evs : List Event) (r : Run σ) : Run σ :=
  { r with events := evs ++ r.events }

/-- The start of `handleJar` and its early return when the bytes do not open as a ZIP. -/
def handleJarCantOpen {σ : Type} (cfg : Config) (path : String) (s : σ) : Run σ :=
  { events := (if cfg.verbose then [Event.inspecting path] else []) ++ [Event.cantOpenJar path],
    state := s, exited := false }

/-- The end of `handleJar`: `if vulnerable && applyPatches { PatchAndSwap(path, backupDir) .. }`.
Any way `PatchAndSwap` ends other than returning nil ends the process. -/
def handleJarPatch {σ : Type} (cfg : Config) (ps : String → String → σ → Outcome × σ)
    (path : String) (vulnerable : Bool) (s : σ) : Run σ :=
  if vulnerable ∧ cfg.applyPatches then
    match ps path cfg.backupDir s with
    | (.returned none, s1) =>
      { events := [.patchAndSwap path cfg.backupDir, .patched path], state := s1, exited := false }
    | (.returned (some e), s1) =>
      { events := [.patchAndSwap path cfg.backupDir, .failedToPatch path e], state := s1,
        exited := true }
    | (_, s1) => { events := [.patchAndSwap path cfg.backupDir], state := s1, exited := true }
  else { events := [], state := s, exited := false }

/-- Go `handleJar(path, ra, sz)`, with the bytes behind `ra` given as `Data`.
`handleJar.members` is the loop over `zr.File`: `i` is the index of the next member and
`vulnerable` the local variable of this invocation; it returns the run of the rest of
the loop and the final value of `vulnerable`.

A nested archive whose read failed is reported and then handed on as the bytes read
(there is no `continue` after the diagnostic): the whole content when the error came at
its end, and otherwise bytes cut short, which are taken not to open as a ZIP (the
directory of a ZIP is at its end). -/
def handleJar {σ : Type} (cfg : Config) (classify : Classifier) (flt : ScanFaults)
    (ps : String → String → σ → Outcome × σ) : String → Data → σ → Run σ
  | path, .zip ms, s =>
    match flt.newReader path with
    | some _ => handleJarCantOpen cfg path s
    | none =>
      let (r, vulnerable) := members path ms 0 false s
      let r1 := Run.after (if cfg.verbose then [Event.inspecting path] else []) r
      if r1.exited then r1
      else Run.after r1.events (handleJarPatch cfg ps path vulnerable r1.state)
  | path, _, s => handleJarCantOpen cfg path s
where
  members : String → List (String × Data) → Nat → Bool → σ → Run σ × Bool
  | _, [], _, vulnerable, s => ({ events := [], state := s, exited := false }, vulnerable)
  | path, (name, content) :: rest, i, vulnerable, s =>
    if ToLower (Ext name) = ".class" then
      match flt.memberOpen path i with
      | some _ =>
        let (r, v) := members path rest (i + 1) vulnerable s
        (Run.after [.cantOpenMember path name] r, v)
      | none =>
        match flt.memberRead path i with
        | some _ =>
          let (r, v) := members path rest (i + 1) vulnerable s
          (Run.after [.cantReadMember path name] r, v)
        | none =>
          if classify content name (!cfg.ignoreV1) ≠ "" then
            let (r, v) := members path rest (i + 1) true s
            (Run.after [.finding path name (classify content name (!cfg.ignoreV1))] r, v)
          else members path rest (i + 1) vulnerable s
    else if ToLower (Ext name) = ".jar" ∨ ToLower (Ext name) = ".war"
        ∨ ToLower (Ext name) = ".ear" then
      match flt.memberOpen path i with
      | some _ =>
        let (r, v) := members path rest (i + 1) vulnerable s
        (Run.after [.cantOpenMember path name] r, v)
      | none =>
        let inner :=
          match flt.memberRead path i with
          | some (_, whole) =>
            Run.after [.cantReadMember path name]
              (if whole then handleJar cfg classify flt ps (path ++ "::" ++ name) content s
               else handleJarCantOpen cfg (path ++ "::" ++ name) s)
          | none => handleJar cfg classify flt ps (path ++ "::" ++ name) content s
        if inner.exited then (inner, vulnerable)
        else
          let (r, v) := members path rest (i + 1) vulnerable inner.state
          (Run.after inner.events r, v)
    else members path rest (i + 1) vulnerable s

/-- Go `excludeFlags.Has(path)`. -/
def Has (flags : List String) (path : String) : Bool :=
  match flags with
  | [] => false
  | exclude :: rest => if path = exclude then true else Has rest path

/-- A directory tree as `filepath.Walk` sees it. The children of a directory are listed
in the order `Walk` visits them (`readDirNames` sorts the names). -/
inductive Node where
  /-- A non-directory entry with its content. -/
  | file (name : String) (data : Data)
  /-- A directory with its entries. -/
  | dir (name : String) (children : List Node)

/-- The name of an entry within its directory. -/
def Node.name : Node → String
  | .file name _ => name
  | .dir name _ => name

/-- The failures the library calls of the walk can report, by path. -/
structure WalkFaults where
  /-- The call `os.Lstat(path)` in `filepath.Walk`. -/
  lstat : String → Option String
  /-- Reading the names in a directory, in `filepath.Walk`. -/
  readDirNames : String → Option String
  /-- The call `os.Open(path)` in the callback. -/
  openFile : String → Option String
  /-- The first `f.Seek(0, io.SeekEnd)` in the callback. -/
  seekSize : String → Option String
  /-- The second `f.Seek(0, io.SeekEnd)` in the callback. -/
  seekAgain : String → Option String
  /-- The calls made by `handleJar`. -/
  scan : ScanFaults

/-- No library call of the walk fails. -/
def noWalkFaults : WalkFaults :=
  { lstat := fun _ => none, readDirNames := fun _ => none, openFile := fun _ => none,
    seekSize := fun _ => none, seekAgain := fun _ => none, scan := noScanFaults }

/-- The callback passed to `filepath.Walk` in `main`, for an entry `Walk` hands over
without error: the run it causes and whether it returns `filepath.SkipDir` (it returns
nil otherwise). `data` is the content of a non-directory entry. -/
def walkFn {σ : Type} (cfg : Config) (classify : Classifier) (flt : WalkFaults)
    (ps : String → String → σ → Outcome × σ) (path : String) (isDir : Bool) (data : Data)
    (s : σ) : Run σ × Bool :=
  if Has cfg.excludes path then ({ events := [], state := s, exited := false }, true)
  else if isDir then ({ events := [], state := s, exited := false }, false)
  else if ToLower (Ext path) = ".jar" ∨ ToLower (Ext path) = ".war"
      ∨ ToLower (Ext path) = ".ear" then
    match flt.openFile path with
    | some _ => ({ events := [.cantOpen path], state := s, exited := false }, false)
    | none =>
      match flt.seekSize path with
      | some _ => ({ events := [.cantSeek path], state := s, exited := false }, false)
      | none =>
        match flt.seekAgain path with
        | some _ => ({ events := [.cantSeek path], state := s, exited := false }, false)
        | none => (handleJar cfg classify flt.scan ps path data s, false)
  else ({ events := [], state := s, exited := false }, false)

/-- The callback for an entry `Walk` hands over with an error: it logs and returns nil. -/
def walkFnErr {σ : Type} (path err : String) (s : σ) : Run σ :=
  { events := [.walkError path err], state := s, exited := false }

/-- Go `filepath.walk(path, info, walkFn)`: the run and whether `SkipDir` is returned.
`walk.children` is the loop over the names of a directory. A `SkipDir` that comes back
from a directory is swallowed by the loop; one that comes back from a non-directory
makes the loop return it, which ends the walk of the directory the entry is in. -/
def walk {σ : Type} (cfg : Config) (classify : Classifier) (flt : WalkFaults)
    (ps : String → String → σ → Outcome × σ) : String → Node → σ → Run σ × Bool
  | path, .file _ data, s => walkFn cfg classify flt ps path false data s
  | path, .dir _ cs, s =>
    match flt.readDirNames path with
    | some e => (walkFnErr path e s, false)
    | none =>
      match walkFn cfg classify flt ps path true (.raw []) s with
      | (r, true) => (r, true)
      | (r, false) =>
        if r.exited then (r, false)
        else
          let (r1, skip) := children path cs r.state
          (Run.after r.events r1, skip)
where
  children : String → List Node → σ → Run σ × Bool
  | _, [], s => ({ events := [], state := s, exited := false }, false)
  | path, c :: rest, s =>
    match flt.lstat (Join path c.name) with
    | some e =>
      let (r, skip) := children path rest (walkFnErr (Join path c.name) e s).state
      (Run.after (walkFnErr (Join path c.name) e s).events r, skip)
    | none =>
      match c with
      | .file n data =>
        match walk cfg classify flt ps (Join path n) (.file n data) s with
        | (r, true) => (r, true)
        | (r, false) =>
          if r.exited then (r, false)
          else
            let (r1, skip) := children path rest r.state
            (Run.after r.events r1, skip)
      | .dir n cs =>
        match walk cfg classify flt ps (Join path n) (.dir n cs) s with
        | (r, _) =>
          if r.exited then (r, false)
          else
            let (r1, skip) := children path rest r.state
            (Run.after r.events r1, skip)

/-- Go `filepath.Walk(root, walkFn)`: `SkipDir` from the root is turned into nil.
`node` is what `root` names, if anything. -/
def Walk {σ : Type} (cfg : Config) (classify : Classifier) (flt : WalkFaults)
    (ps : String → String → σ → Outcome × σ) (root : String) (node : Option Node) (s : σ) :
    Run σ :=
  match flt.lstat root, node with
  | some e, _ => walkFnErr root e s
  | none, none => walkFnErr root "no such file or directory" s
  | none, some n => (walk cfg classify flt ps root n s).1

/-- The loop `for _, root := range flag.Args()` of `main`. -/
def scanRoots {σ : Type} (cfg : Config) (classify : Classifier) (flt : WalkFaults)
    (ps : String → String → σ → Outcome × σ) : List (String × Option Node) → σ → Run σ
  | [], s => { events := [], state := s, exited := false }
  | (root, node) :: rest, s =>
    let r := Walk cfg classify flt ps root node s
    if r.exited then r
    else Run.after r.events (scanRoots cfg classify flt ps rest r.state)

/-- The paths `handleJar` is called on by the walk callback, read off a run with
`verbose` set: every call of `handleJar` starts with the line `Inspecting <path>...`. -/
def inspected (evs : List Event) : List String :=
  evs.filterMap (fun e => match e with | .inspecting p => some p | _ => none)

/-- The paths handed to `patching.PatchAndSwap` in a run. -/
def patchCalls (evs : List Event) : List String :=
  evs.filterMap (fun e => match e with | .patchAndSwap p _ => some p | _ => none)

/-- The `(path, name)` pairs of the findings reported in a run. -/
def findings (evs : List Event) : List (String × String) :=
  evs.filterMap (fun e => match e with | .finding p n _ => some (p, n) | _ => none)

/-! ## Predicates and sample inputs used by the statements -/

/-- No library call made by `patch` fails. -/
def PatchFaults.NoFault (flt : PatchFaults) : Prop :=
  flt.openReader = none ∧ flt.create = none ∧ (∀ i, flt.memberOpen i = none) ∧
  (∀ i, flt.memberRead i = none) ∧ (∀ i, flt.zwCreate i = none) ∧
  (∀ i, flt.zwWrite i = none) ∧ flt.zwClose = none ∧ flt.ofClose = none

/-- The members the classifier does not flag, in their original order. -/
def retained (classify : Classifier) (examineV1 : Bool) (members : List (String × Data)) :
    List (String × Data) :=
  members.filter (fun m => classify m.2 m.1 examineV1 = "")

/-- A classifier that flags the entries named `B` and nothing else. -/
def flagsB : Classifier := fun _ name _ => if name = "B" then "vulnerable" else ""

/-- A classifier that flags every entry. -/
def flagsAll : Classifier := fun _ _ _ => "vulnerable"

/-- A classifier that flags the entries named `Bad.class` and nothing else. -/
def flagsBadClass : Classifier := fun _ name _ => if name = "Bad.class" then "log4j" else ""

/-- A regular file owned by 1000:1000 with mode 0644. -/
def fileOf (d : Data) : File := { data := d, uid := 1000, gid := 1000, mode := 0o644 }

/-- A file system with the single file `path`. -/
def singleFile (path : String) (f : File) : FS := fun q => if q = path then some f else none

/-- The process the samples run as. -/
def root : Proc := { uid := 0, gid := 0, umask := 0o022 }

/-- The archive with entries A (clean), B (vulnerable for `flagsB`), C (clean). -/
def abc : List (String × Data) := [("A", .raw [1]), ("B", .raw [2]), ("C", .raw [3])]

/-- The names of the findings a run reports for the archive `path` itself, as opposed
to the archives nested in it. -/
def topFindings (path : String) (evs : List Event) : List String :=
  ((findings evs).filter (fun x => x.1 = path)).map (fun x => x.2)

/-- The names of the members of an archive that `handleJar` classifies and finds
flagged when no read fails: those with extension `.class`. -/
def flaggedClasses (classify : Classifier) (examineV1 : Bool)
    (members : List (String × Data)) : List String :=
  (members.filter
    (fun m => ToLower (Ext m.1) = ".class" ∧ classify m.2 m.1 examineV1 ≠ "")).map (fun m => m.1)

/-- The names of the members `patch` leaves out of the rewritten archive. -/
def dropped (classify : Classifier) (examineV1 : Bool)
    (members : List (String × Data)) : List String :=
  (members.filter (fun m => classify m.2 m.1 examineV1 ≠ "")).map (fun m => m.1)

/-- A state-less stand-in for `PatchAndSwap` that always fails. -/
def failingSwap : String → String → Unit → Outcome × Unit :=
  fun _ _ _ => (.returned (some "failed"), ())

/-- A configuration with every switch off and the given exclusions. -/
def plainConfig (excludes : List String) : Config :=
  { verbose := false, ignoreV1 := false, applyPatches := false, backupDir := "",
    excludes := excludes }

/-- Every finding event of a run carries a path at least as long as `path`. -/
def FindingsBelow (path : String) (evs : List Event) : Prop :=
  ∀ p n d, Event.finding p n d ∈ evs → path.length ≤ p.length

/-- An archive whose only member is a text file. -/
def notesOnly : List (String × Data) := [("notes.txt", .raw [1])]

/-- An archive with a clean class, a class `flagsBadClass` flags, and a text file. -/
def mixed : List (String × Data) :=
  [("A.class", .raw [1]), ("Bad.class", .raw [2]), ("notes.txt", .raw [3])]

/-- The faults of `patch` with every `member.Open()` failing. -/
def memberOpenFails : PatchFaults :=
  { noPatchFaults with memberOpen := fun _ => some "zip: unsupported compression algorithm" }

/-- The faults of `patch` with the final `zw.Close()` failing. -/
def finalizeFails : PatchFaults :=
  { noPatchFaults with zwClose := some "no space left on device" }

/-- What the rewritten archive is when `patch` returns nil: the members the classifier
does not flag, finalised unless the final `zw.Close()` failed. -/
def rewritten (classify : Classifier) (flt : PatchFaults) (examineV1 : Bool)
    (members : List (String × Data)) : Data :=
  match flt.zwClose with
  | none => .zip (retained classify examineV1 members)
  | some _ => .unfinished (retained classify examineV1 members)

/-- The sample source archive of the transaction examples: `app.jar` with A, B, C. -/
def appJar : FS := singleFile "app.jar" (fileOf (.zip abc))

/-- A source file that is not a ZIP archive. -/
def notZip : FS := singleFile "app.jar" (fileOf (.raw [80, 75]))

/-- The faults of the transaction with reading the first member of the source failing. -/
def readFails : SwapFaults :=
  { noSwapFaults with
    patch := { noPatchFaults with memberRead := fun _ => some "unexpected EOF" } }

/-- The faults of the transaction with `os.Chown` on the temp file failing. -/
def chownFails : SwapFaults :=
  { noSwapFaults with chown := some "operation not permitted" }

/-- The function `PatchAndSwap` as the scanner calls it: on the file system, with no failing call. -/
def swapOnDisk (classify : Classifier) : String → String → FS → Outcome × FS :=
  fun path backupDir fs => PatchAndSwap classify noSwapFaults root 1700000000 fs path backupDir

/-- The members of `outer.jar`: the nested archive `inner.jar`, which holds the class
`flagsBadClass` flags, and a clean class. -/
def outerMembers : List (String × Data) :=
  [("inner.jar", .zip [("Bad.class", .raw [1])]), ("Ok.class", .raw [2])]

/-- A disk holding `outer.jar` only. -/
def outerDisk : FS := singleFile "outer.jar" (fileOf (.zip outerMembers))

/-- The flags `--apply-patches --backup-dir bk`. -/
def patchingConfig : Config :=
  { verbose := false, ignoreV1 := false, applyPatches := true, backupDir := "bk",
    excludes := [] }

/-- The flags `--verbose` with the given exclusions. -/
def verboseConfig (excludes : List String) : Config :=
  { verbose := true, ignoreV1 := false, applyPatches := false, backupDir := "",
    excludes := excludes }

/-- The directory `r` holding the archives `a.jar` and `b.jar`. -/
def twoJars : Node := .dir "r" [.file "a.jar" (.zip []), .file "b.jar" (.zip [])]

/-- The faults of the transaction with reading a member failing when stderr can no
longer be written: the log line of that failure and the one of the deferred function
fail. The two log lines before `patch` were still written. -/
def readFailsNoStderr : SwapFaults :=
  { readFails with
    log := fun s =>
      match s with
      | .backingUp => none
      | .patching => none
      | _ => some "no space left on device",
    patch := { readFails.patch with log := fun _ => some "no space left on device" } }

/-- The faults of the transaction with `os.Chown` on the temp file failing and the log
line of the deferred function failing too. -/
def chownFailsNoStderr : SwapFaults :=
  { chownFails with
    log := fun s =>
      match s with
      | .removingBackup => some "no space left on device"
      | _ => none }

/-- The faults of the transaction with reading a member failing and both removals of
the backup failing too. -/
def readAndRemoveFail : SwapFaults :=
  { readFails with
    removeAfterPatch := some "permission denied", removeDeferred := some "permission denied" }

/-- Every remediation call of a run is made with a path at least as long as `path`. -/
def PatchCallsBelow (path : String) (evs : List Event) : Prop :=
  ∀ p ∈ patchCalls evs, path.length ≤ p.length

/-- Every remediation call of a run is made with a path longer than `path`. -/
def PatchCallsAbove (path : String) (evs : List Event) : Prop :=
  ∀ p ∈ patchCalls evs, path.length < p.length

/-- No library call made by `handleJar` fails, for any archive and member. -/
def ScanFaults.NoFault (flt : ScanFaults) : Prop :=
  ∀ p, flt.newReader p = none ∧ (∀ i, flt.memberOpen p i = none) ∧
    (∀ i, flt.memberRead p i = none)

/-- One of the steps of `patch` after the source was opened fails, other than opening a
member: creating dest, reading a member, creating or writing the output entry of a
member the classifier does not flag, or closing dest. -/
def PatchFaults.StepFails (flt : PatchFaults) (classify : Classifier) (examineV1 : Bool)
    (members : List (String × Data)) : Prop :=
  flt.create ≠ none ∨
  (∃ i m, members[i]? = some m ∧ flt.memberRead i ≠ none) ∨
  (∃ i m, members[i]? = some m ∧ classify m.2 m.1 examineV1 = "" ∧
    (flt.zwCreate i ≠ none ∨ flt.zwWrite i ≠ none)) ∨
  flt.ofClose ≠ none

/-- The specification's notion of a flagged entry at any nesting depth: the entry `name`
is flagged in the archive at `path` with content `d`, under the report path `p`. Either
it is a `.class` member of the archive itself that the classifier flags (`p` is `path`),
or it is flagged in a `.jar`/`.war`/`.ear` member `inner` of the archive, whose path is
`path + "::" + inner`. -/
inductive Flagged (classify : Classifier) (examineV1 : Bool) :
    String → Data → String → String → Prop where
  /-- A `.class` member of the archive itself. -/
  | direct (path : String) (ms : List (String × Data)) (name : String) (content : Data) :
      (name, content) ∈ ms → ToLower (Ext name) = ".class" →
      classify content name examineV1 ≠ "" →
      Flagged classify examineV1 path (.zip ms) path name
  /-- An entry flagged in a nested archive. -/
  | nested (path : String) (ms : List (String × Data)) (inner : String) (d : Data)
      (p name : String) :
      (inner, d) ∈ ms →
      (ToLower (Ext inner) = ".jar" ∨ ToLower (Ext inner) = ".war"
        ∨ ToLower (Ext inner) = ".ear") →
      Flagged classify examineV1 (path ++ "::" ++ inner) d p name →
      Flagged classify examineV1 path (.zip ms) p name

/-- The members of `deep.jar`: a clean class and the nested archive `mid.jar`, which
holds `inner.jar`, which holds the class `flagsBadClass` flags. -/
def deepMembers : List (String × Data) :=
  [("Ok.class", .raw [2]),
   ("mid.jar", .zip [("inner.jar", .zip [("Bad.class", .raw [1])])])]

/-- The members of `app.jar` with the flagged class as a direct member, next to an
empty nested archive. -/
def directMembers : List (String × Data) :=
  [("lib.jar", .zip []), ("Bad.class", .raw [1])]

/-- A disk holding `app.jar` with `directMembers` only. -/
def directDisk : FS := singleFile "app.jar" (fileOf (.zip directMembers))

/-- A disk holding `deep.jar` with `deepMembers` only. -/
def deepDisk : FS := singleFile "deep.jar" (fileOf (.zip deepMembers))

/-! # Properties -/

/-! ## The rewriter -/

theorem patchLoop_noFault (classify : Classifier) (examineV1 : Bool) (flt : PatchFaults)
    (hflt : flt.NoFault) (members : List (String × Data)) :
    ∀ (i : Nat) (written : List (String × Data)),
      patchLoop classify examineV1 flt members i written
        = (none, .unfinished (written ++ retained classify examineV1 members)) := by
  obtain ⟨-, -, ho, hr, hc, hw, -, -⟩ := hflt
  induction members with
  | nil => intro i written; simp [patchLoop, retained]
  | cons m rest ih =>
    intro i written
    obtain ⟨name, content⟩ := m
    by_cases hcl : classify content name examineV1 = ""
    · simp [patchLoop, ho, hr, hc, hw, hcl, ih, retained]
    · simp [patchLoop, ho, hr, hc, hw, hcl, ih, retained]

theorem FS.set_same (fs : FS) (p : String) (f : File) : fs.set p f p = some f := by
  simp [FS.set]

theorem FS.set_other (fs : FS) (p q : String) (f : File) (h : q ≠ p) : fs.set p f q = fs q := by
  simp [FS.set, h]

theorem createFile_other (proc : Proc) (fs : FS) (p q : String) (h : q ≠ p) :
    createFile proc fs p q = fs q := by
  unfold createFile
  cases fs p <;> simp [FS.set, h]

theorem createFile_same (proc : Proc) (fs : FS) (p : String) :
    ∃ g, createFile proc fs p p = some g := by
  unfold createFile
  cases fs p <;> simp [FS.set]

theorem setData_other (fs : FS) (p q : String) (d : Data) (h : q ≠ p) :
    setData fs p d q = fs q := by
  unfold setData
  cases fs p <;> simp [FS.set, h]

theorem setData_same (fs : FS) (p : String) (d : Data) (g : File) (h : fs p = some g) :
    setData fs p d p = some { g with data := d } := by
  simp [setData, h, FS.set]

/-- The source file is never modified by `patch`, whatever fails. -/
theorem patch_source_untouched (classify : Classifier) (flt : PatchFaults) (proc : Proc)
    (fs : FS) (source dest : String) (examineV1 : Bool) (q : String) (h : q ≠ dest) :
    (patch classify flt proc fs source dest examineV1).2 q = fs q := by
  unfold patch
  repeat' split
  all_goals first
    | rfl
    | simp [setData_other _ _ _ _ h, createFile_other _ _ _ _ h]

/-- C1. Exclusion correctness of the rewriter: when no I/O step fails, `patch` returns nil
and the archive at dest is the finalised ZIP whose members are exactly the source members
for which the classifier returns the empty description, in the source order, each with
its name and content; every flagged member is absent; the source is as before. -/
theorem patch_exclusion_correct (classify : Classifier) (flt : PatchFaults) (proc : Proc)
    (fs : FS) (source dest : String) (examineV1 : Bool) (f : File)
    (members : List (String × Data))
    (hflt : flt.NoFault) (hsrc : fs source = some f) (hzip : f.data = .zip members)
    (hne : source ≠ dest) :
    (patch classify flt proc fs source dest examineV1).1 = .returned none ∧
    (∃ g, (patch classify flt proc fs source dest examineV1).2 dest = some g ∧
      g.data = .zip (members.filter (fun m => classify m.2 m.1 examineV1 = ""))) ∧
    (members.filter (fun m => classify m.2 m.1 examineV1 = "")).Sublist members ∧
    (∀ m ∈ members, classify m.2 m.1 examineV1 ≠ "" →
      m ∉ members.filter (fun m => classify m.2 m.1 examineV1 = "")) ∧
    (patch classify flt proc fs source dest examineV1).2 source = fs source := by
  have hloop := patchLoop_noFault classify examineV1 flt hflt members 0 []
  obtain ⟨hopen, hcreate, -, -, -, -, hzw, hof⟩ := hflt
  have hmem : openZip flt.openReader (fs source) source = .ok members := by
    cases f with
    | mk d u g m => simp only at hzip; subst hzip; simp [openZip, hopen, hsrc]
  obtain ⟨g0, hg0⟩ := createFile_same proc fs dest
  refine ⟨?_, ?_, List.filter_sublist _, ?_, patch_source_untouched _ _ _ _ _ _ _ _ hne⟩
  · simp [patch, hmem, hcreate, hloop, hof, hzw]
  · refine ⟨{ g0 with data := .zip (retained classify examineV1 members) }, ?_, rfl⟩
    simp [patch, hmem, hcreate, hloop, hzw, finalised, setData_same _ _ _ _ hg0]
  · intro m _ hm hin
    simp [List.mem_filter] at hin
    exact hm hin.2

/-- Witness for C1: the archive A (clean), B (vulnerable), C (clean) is rewritten to A, C. -/
theorem patch_exclusion_correct_witness :
    (patch flagsB noPatchFaults root (singleFile "app.jar" (fileOf (.zip abc)))
        "app.jar" "app.jar.new" true).1 = .returned none ∧
    (∃ g, (patch flagsB noPatchFaults root (singleFile "app.jar" (fileOf (.zip abc)))
        "app.jar" "app.jar.new" true).2 "app.jar.new" = some g ∧
      g.data = .zip (abc.filter (fun m => flagsB m.2 m.1 true = ""))) ∧
    (abc.filter (fun m => flagsB m.2 m.1 true = "")).Sublist abc ∧
    (∀ m ∈ abc, flagsB m.2 m.1 true ≠ "" →
      m ∉ abc.filter (fun m => flagsB m.2 m.1 true = "")) ∧
    (patch flagsB noPatchFaults root (singleFile "app.jar" (fileOf (.zip abc)))
        "app.jar" "app.jar.new" true).2 "app.jar" = singleFile "app.jar" (fileOf (.zip abc)) "app.jar" :=
  patch_exclusion_correct flagsB noPatchFaults root (singleFile "app.jar" (fileOf (.zip abc)))
    "app.jar" "app.jar.new" true (fileOf (.zip abc)) abc
    ⟨rfl, rfl, fun _ => rfl, fun _ => rfl, fun _ => rfl, fun _ => rfl, rfl, rfl⟩
    rfl rfl (by decide)

/-! ## The inspector -/

theorem handleJarPatch_off {σ : Type} (cfg : Config) (ps : String → String → σ → Outcome × σ)
    (hcfg : cfg.applyPatches = false) (path : String) (v : Bool) (s : σ) :
    handleJarPatch cfg ps path v s = { events := [], state := s, exited := false } := by
  simp [handleJarPatch, hcfg]

theorem findingsBelow_append (path : String) (a b : List Event)
    (ha : FindingsBelow path a) (hb : FindingsBelow path b) : FindingsBelow path (a ++ b) := by
  intro p n d h
  rcases List.mem_append.mp h with h | h
  · exact ha p n d h
  · exact hb p n d h

theorem findingsBelow_nested (path name : String) (evs : List Event)
    (h : FindingsBelow (path ++ "::" ++ name) evs) : FindingsBelow path evs := by
  intro p n d hin
  have := h p n d hin
  simp [String.length_append] at this
  omega

theorem findingsBelow_cantOpen {σ : Type} (cfg : Config) (path : String) (s : σ) (q : String) :
    FindingsBelow q (handleJarCantOpen cfg path s).events := by
  intro p n d h
  cases hv : cfg.verbose <;> simp [handleJarCantOpen, hv] at h

mutual
theorem handleJar_noPatch {σ : Type} (cfg : Config) (classify : Classifier) (flt : ScanFaults)
    (ps : String → String → σ → Outcome × σ) (hcfg : cfg.applyPatches = false) :
    ∀ (path : String) (d : Data) (s : σ),
      (handleJar cfg classify flt ps path d s).exited = false ∧
      (handleJar cfg classify flt ps path d s).state = s ∧
      FindingsBelow path (handleJar cfg classify flt ps path d s).events
  | path, .zip ms, s => by
    have h := members_noPatch cfg classify flt ps hcfg path ms 0 false s
    rw [handleJar]
    cases hn : flt.newReader path with
    | some e => exact ⟨rfl, rfl, findingsBelow_cantOpen cfg path s path⟩
    | none =>
      obtain ⟨h1, h2, h3⟩ := h
      simp only [Run.after, h1, handleJarPatch_off cfg ps hcfg, h2, List.append_nil]
      refine ⟨by simp, by simp, ?_⟩
      simp only [Bool.false_eq_true, if_false]
      refine findingsBelow_append _ _ _ ?_ h3
      intro p n d hin
      cases hv : cfg.verbose <;> simp [hv] at hin
  | path, .raw _, s => ⟨rfl, rfl, findingsBelow_cantOpen cfg path s path⟩
  | path, .unfinished _, s => ⟨rfl, rfl, findingsBelow_cantOpen cfg path s path⟩
  | path, .tar _ _ _, s => ⟨rfl, rfl, findingsBelow_cantOpen cfg path s path⟩
  | path, .torn, s => ⟨rfl, rfl, findingsBelow_cantOpen cfg path s path⟩
theorem members_noPatch {σ : Type} (cfg : Config) (classify : Classifier) (flt : ScanFaults)
    (ps : String → String → σ → Outcome × σ) (hcfg : cfg.applyPatches = false) :
    ∀ (path : String) (ms : List (String × Data)) (i : Nat) (v : Bool) (s : σ),
      (handleJar.members cfg classify flt ps path ms i v s).1.exited = false ∧
      (handleJar.members cfg classify flt ps path ms i v s).1.state = s ∧
      FindingsBelow path (handleJar.members cfg classify flt ps path ms i v s).1.events
  | path, [], i, v, s => by
    rw [handleJar.members]
    exact ⟨rfl, rfl, by intro p n d h; simp at h⟩
  | path, (name, content) :: rest, i, v, s => by
    have h1 := handleJar_noPatch cfg classify flt ps hcfg (path ++ "::" ++ name) content s
    have h2 := members_noPatch cfg classify flt ps hcfg path rest (i + 1) v s
    have h3 := members_noPatch cfg classify flt ps hcfg path rest (i + 1) true s
    obtain ⟨h1a, h1b, h1c⟩ := h1
    obtain ⟨h2a, h2b, h2c⟩ := h2
    obtain ⟨h3a, h3b, h3c⟩ := h3
    have hcons : ∀ (e : Event) (evs : List Event), (∀ p n d, e = Event.finding p n d →
        path.length ≤ p.length) → FindingsBelow path evs → FindingsBelow path ([e] ++ evs) := by
      intro e evs he hevs p n d hin
      rcases List.mem_append.mp hin with h | h
      · simp at h; exact he p n d h.symm
      · exact hevs p n d h
    rw [handleJar.members]
    split
    · split
      · exact ⟨h2a, h2b, hcons _ _ (by intro p n d h; cases h) h2c⟩
      · split
        · exact ⟨h2a, h2b, hcons _ _ (by intro p n d h; cases h) h2c⟩
        · split
          · refine ⟨h3a, h3b, hcons _ _ ?_ h3c⟩
            intro p n d h
            cases h
            exact le_refl _
          · exact ⟨h2a, h2b, h2c⟩
    · split
      · split
        · exact ⟨h2a, h2b, hcons _ _ (by intro p n d h; cases h) h2c⟩
        · have key : ∀ inner : Run σ, inner.exited = false → inner.state = s →
              FindingsBelow path inner.events →
              (if inner.exited = true then (inner, v)
                else
                  match handleJar.members cfg classify flt ps path rest (i + 1) v inner.state with
                  | (r, v) => (Run.after inner.events r, v)).1.exited = false ∧
              (if inner.exited = true then (inner, v)
                else
                  match handleJar.members cfg classify flt ps path rest (i + 1) v inner.state with
                  | (r, v) => (Run.after inner.events r, v)).1.state = s ∧
              FindingsBelow path
                (if inner.exited = true then (inner, v)
                else
                  match handleJar.members cfg classify flt ps path rest (i + 1) v inner.state with
                  | (r, v) => (Run.after inner.events r, v)).1.events := by
            intro inner hi1 hi2 hi3
            simp only [hi1, hi2, Bool.false_eq_true, if_false, Run.after]
            exact ⟨h2a, h2b, findingsBelow_append _ _ _ hi3 h2c⟩
          cases hr : flt.memberRead path i with
          | some e =>
            obtain ⟨msg, whole⟩ := e
            cases whole
            · refine key _ rfl rfl ?_
              intro p n d h
              cases hv : cfg.verbose <;> simp [Run.after, handleJarCantOpen, hv] at h
            · exact key _ h1a h1b
                (hcons _ _ (by intro p n d h; cases h) (findingsBelow_nested _ _ _ h1c))
          | none => exact key _ h1a h1b (findingsBelow_nested _ _ _ h1c)
      · exact ⟨h2a, h2b, h2c⟩
end

theorem topFindings_append (path : String) (a b : List Event) :
    topFindings path (a ++ b) = topFindings path a ++ topFindings path b := by
  simp [topFindings, findings, List.filterMap_append]

theorem topFindings_below (path q : String) (evs : List Event) (h : FindingsBelow q evs)
    (hlt : path.length < q.length) : topFindings path evs = [] := by
  induction evs with
  | nil => rfl
  | cons e evs ih =>
    have ih1 := ih (fun p n d hin => h p n d (List.mem_cons_of_mem _ hin))
    have he : topFindings path [e] = [] := by
      cases e with
      | finding p n d =>
        have := h p n d (List.mem_cons_self _ _)
        have hne : p ≠ path := by
          intro hEq; subst hEq; omega
        simp [topFindings, findings, hne]
      | _ => rfl
    have := topFindings_append path [e] evs
    simp only [List.singleton_append] at this
    rw [this, he, ih1]; rfl

/-- With no failing read at the top level and patching off, the findings `handleJar`
reports for the archive itself are its flagged `.class` members, in order. -/
theorem members_topFindings {σ : Type} (cfg : Config) (classify : Classifier)
    (flt : ScanFaults) (ps : String → String → σ → Outcome × σ)
    (hcfg : cfg.applyPatches = false) (path : String)
    (hopen : ∀ i, flt.memberOpen path i = none) (hread : ∀ i, flt.memberRead path i = none) :
    ∀ (ms : List (String × Data)) (i : Nat) (v : Bool) (s : σ),
      topFindings path (handleJar.members cfg classify flt ps path ms i v s).1.events
        = flaggedClasses classify (!cfg.ignoreV1) ms := by
  intro ms
  induction ms with
  | nil => intro i v s; rw [handleJar.members]; rfl
  | cons m rest ih =>
    intro i v s
    obtain ⟨name, content⟩ := m
    rw [handleJar.members]
    simp only [hopen, hread]
    by_cases hc : ToLower (Ext name) = ".class"
    · by_cases hd : classify content name (!cfg.ignoreV1) = ""
      · simp [hc, hd, ih, flaggedClasses]
      · simp only [hc, hd, if_true, ne_eq, not_false_eq_true, Run.after]
        rw [topFindings_append, ih]
        simp [topFindings, findings, flaggedClasses, hc, hd]
    · simp only [hc, if_false]
      have hflag : flaggedClasses classify (!cfg.ignoreV1) ((name, content) :: rest)
          = flaggedClasses classify (!cfg.ignoreV1) rest := by
        simp [flaggedClasses, hc]
      rw [hflag]
      split
      · obtain ⟨h1, h2, h3⟩ :=
          handleJar_noPatch cfg classify flt ps hcfg (path ++ "::" ++ name) content s
        simp only [h1, h2, Bool.false_eq_true, if_false, Run.after]
        rw [topFindings_append, ih,
          topFindings_below path (path ++ "::" ++ name) _ h3
            (by
              have h2 : "::".length = 2 := rfl
              simp only [String.length_append, h2]; omega)]
        rfl
      · exact ih _ _ _

theorem handleJar_topFindings {σ : Type} (cfg : Config) (classify : Classifier)
    (flt : ScanFaults) (ps : String → String → σ → Outcome × σ)
    (hcfg : cfg.applyPatches = false) (path : String) (hnew : flt.newReader path = none)
    (hopen : ∀ i, flt.memberOpen path i = none) (hread : ∀ i, flt.memberRead path i = none)
    (ms : List (String × Data)) (s : σ) :
    topFindings path (handleJar cfg classify flt ps path (.zip ms) s).events
      = flaggedClasses classify (!cfg.ignoreV1) ms := by
  obtain ⟨h1, h2, -⟩ := members_noPatch cfg classify flt ps hcfg path ms 0 false s
  rw [handleJar]
  simp only [hnew, Run.after, h1, handleJarPatch_off cfg ps hcfg, h2, List.append_nil,
    Bool.false_eq_true, if_false]
  rw [topFindings_append, members_topFindings cfg classify flt ps hcfg path hopen hread]
  cases hv : cfg.verbose <;> simp [topFindings, findings]

theorem patchCalls_append (a b : List Event) :
    patchCalls (a ++ b) = patchCalls a ++ patchCalls b := by
  simp [patchCalls, List.filterMap_append]

theorem patchCallsAbove_append (path : String) (a b : List Event)
    (ha : PatchCallsAbove path a) (hb : PatchCallsAbove path b) :
    PatchCallsAbove path (a ++ b) := by
  intro p hp
  rw [patchCalls_append] at hp
  rcases List.mem_append.mp hp with h | h
  · exact ha p h
  · exact hb p h

theorem patchCallsBelow_append (path : String) (a b : List Event)
    (ha : PatchCallsBelow path a) (hb : PatchCallsBelow path b) :
    PatchCallsBelow path (a ++ b) := by
  intro p hp
  rw [patchCalls_append] at hp
  rcases List.mem_append.mp hp with h | h
  · exact ha p h
  · exact hb p h

theorem patchCallsAbove_nested (path name : String) (evs : List Event)
    (h : PatchCallsBelow (path ++ "::" ++ name) evs) : PatchCallsAbove path evs := by
  intro p hp
  have := h p hp
  have h2 : "::".length = 2 := rfl
  simp only [String.length_append, h2] at this
  omega

theorem patchCallsAbove_cantOpen {σ : Type} (cfg : Config) (path : String) (s : σ) (q : String) :
    PatchCallsAbove q (handleJarCantOpen cfg path s).events := by
  intro p hp
  cases hv : cfg.verbose <;> simp [handleJarCantOpen, hv, patchCalls] at hp

theorem patchCallsBelow_patch {σ : Type} (cfg : Config) (ps : String → String → σ → Outcome × σ)
    (path : String) (v : Bool) (s : σ) :
    PatchCallsBelow path (handleJarPatch cfg ps path v s).events := by
  intro p hp
  unfold handleJarPatch at hp
  split at hp
  · split at hp <;> simp [patchCalls] at hp <;> rw [hp]
  · simp [patchCalls] at hp

mutual
theorem handleJar_patchCalls {σ : Type} (cfg : Config) (classify : Classifier)
    (flt : ScanFaults) (ps : String → String → σ → Outcome × σ) :
    ∀ (path : String) (d : Data) (s : σ),
      PatchCallsBelow path (handleJar cfg classify flt ps path d s).events
  | path, .zip ms, s => by
    have h := members_patchCalls cfg classify flt ps path ms 0 false s
    have hm : PatchCallsBelow path
        ((if cfg.verbose then [Event.inspecting path] else []) ++
          (handleJar.members cfg classify flt ps path ms 0 false s).1.events) := by
      refine patchCallsBelow_append _ _ _ ?_ (fun p hp => Nat.le_of_lt (h p hp))
      intro p hp
      cases hv : cfg.verbose <;> simp [hv, patchCalls] at hp
    rw [handleJar]
    cases hn : flt.newReader path with
    | some e => exact fun p hp => Nat.le_of_lt (patchCallsAbove_cantOpen cfg path s path p hp)
    | none =>
      simp only [Run.after]
      split
      · exact hm
      · exact patchCallsBelow_append _ _ _ hm (patchCallsBelow_patch _ _ _ _ _)
  | path, .raw _, s => fun p hp => Nat.le_of_lt (patchCallsAbove_cantOpen cfg path s path p hp)
  | path, .unfinished _, s =>
    fun p hp => Nat.le_of_lt (patchCallsAbove_cantOpen cfg path s path p hp)
  | path, .tar _ _ _, s =>
    fun p hp => Nat.le_of_lt (patchCallsAbove_cantOpen cfg path s path p hp)
  | path, .torn, s => fun p hp => Nat.le_of_lt (patchCallsAbove_cantOpen cfg path s path p hp)
theorem members_patchCalls {σ : Type} (cfg : Config) (classify : Classifier)
    (flt : ScanFaults) (ps : String → String → σ → Outcome × σ) :
    ∀ (path : String) (ms : List (String × Data)) (i : Nat) (v : Bool) (s : σ),
      PatchCallsAbove path (handleJar.members cfg classify flt ps path ms i v s).1.events
  | path, [], i, v, s => by
    rw [handleJar.members]
    intro p hp
    simp [patchCalls] at hp
  | path, (name, content) :: rest, i, v, s => by
    have h1 := handleJar_patchCalls cfg classify flt ps (path ++ "::" ++ name) content s
    have hrest : ∀ v1 s1, PatchCallsAbove path
        (handleJar.members cfg classify flt ps path rest (i + 1) v1 s1).1.events :=
      fun v1 s1 => members_patchCalls cfg classify flt ps path rest (i + 1) v1 s1
    have hcons : ∀ (e : Event) (evs : List Event), patchCalls [e] = [] →
        PatchCallsAbove path evs → PatchCallsAbove path ([e] ++ evs) := by
      intro e evs he hevs
      refine patchCallsAbove_append _ _ _ ?_ hevs
      intro p hp; rw [he] at hp; simp at hp
    rw [handleJar.members]
    split
    · split
      · exact hcons _ _ rfl (hrest _ _)
      · split
        · exact hcons _ _ rfl (hrest _ _)
        · split
          · exact hcons _ _ rfl (hrest _ _)
          · exact hrest _ _
    · split
      · split
        · exact hcons _ _ rfl (hrest _ _)
        · have key : ∀ inner : Run σ, PatchCallsAbove path inner.events →
              PatchCallsAbove path
                (if inner.exited = true then (inner, v)
                else
                  match handleJar.members cfg classify flt ps path rest (i + 1) v inner.state with
                  | (r, v) => (Run.after inner.events r, v)).1.events := by
            intro inner hi
            split
            · exact hi
            · exact patchCallsAbove_append _ _ _ hi (hrest _ _)
          cases hr : flt.memberRead path i with
          | some e =>
            obtain ⟨msg, whole⟩ := e
            cases whole
            · refine key _ ?_
              simp only [Run.after]
              exact hcons _ _ rfl (patchCallsAbove_cantOpen cfg _ s path)
            · exact key _ (hcons _ _ rfl (patchCallsAbove_nested _ _ _ h1))
          | none => exact key _ (patchCallsAbove_nested _ _ _ h1)
      · exact hrest _ _
end

theorem flaggedClasses_cons_ne_nil (classify : Classifier) (examineV1 : Bool)
    (m : String × Data) (rest : List (String × Data))
    (h : flaggedClasses classify examineV1 rest ≠ []) :
    flaggedClasses classify examineV1 (m :: rest) ≠ [] := by
  unfold flaggedClasses at *
  rw [List.filter_cons]
  split
  · simp
  · exact h

/-- The verdict of an invocation comes from its direct `.class` members only: the loop
ends with `vulnerable` set only if it was set before or a direct `.class` member is
flagged. -/
theorem members_verdict {σ : Type} (cfg : Config) (classify : Classifier) (flt : ScanFaults)
    (ps : String → String → σ → Outcome × σ) (path : String) :
    ∀ (ms : List (String × Data)) (i : Nat) (v : Bool) (s : σ),
      (handleJar.members cfg classify flt ps path ms i v s).2 = true →
      v = true ∨ flaggedClasses classify (!cfg.ignoreV1) ms ≠ [] := by
  intro ms
  induction ms with
  | nil => intro i v s h; rw [handleJar.members] at h; exact Or.inl h
  | cons m rest ih =>
    intro i v s h
    obtain ⟨name, content⟩ := m
    have lift : ∀ v1 s1, (handleJar.members cfg classify flt ps path rest (i + 1) v1 s1).2 = true →
        v1 = v → v = true ∨ flaggedClasses classify (!cfg.ignoreV1) ((name, content) :: rest) ≠ [] := by
      intro v1 s1 h1 hv
      rcases ih _ _ _ h1 with h2 | h2
      · exact Or.inl (hv ▸ h2)
      · exact Or.inr (flaggedClasses_cons_ne_nil _ _ _ _ h2)
    rw [handleJar.members] at h
    split at h
    · rename_i hc
      split at h
      · exact lift _ _ h rfl
      · split at h
        · exact lift _ _ h rfl
        · split at h
          · rename_i hd
            right
            simp [flaggedClasses, hc, hd]
          · exact lift _ _ h rfl
    · split at h
      · split at h
        · exact lift _ _ h rfl
        · have key : ∀ inner : Run σ,
              (if inner.exited = true then (inner, v)
                else
                  match handleJar.members cfg classify flt ps path rest (i + 1) v inner.state with
                  | (r, v) => (Run.after inner.events r, v)).2 = true →
              v = true ∨
                flaggedClasses classify (!cfg.ignoreV1) ((name, content) :: rest) ≠ [] := by
            intro inner hi
            split at hi
            · exact Or.inl hi
            · exact lift _ _ hi rfl
          exact key _ h
      · exact lift _ _ h rfl

theorem findings_append (a b : List Event) : findings (a ++ b) = findings a ++ findings b := by
  simp [findings, List.filterMap_append]

theorem findings_cantOpen {σ : Type} (cfg : Config) (path : String) (s : σ) :
    findings (handleJarCantOpen cfg path s).events = [] := by
  cases hv : cfg.verbose <;> simp [handleJarCantOpen, hv, findings]

theorem findings_patch {σ : Type} (cfg : Config) (ps : String → String → σ → Outcome × σ)
    (path : String) (v : Bool) (s : σ) :
    findings (handleJarPatch cfg ps path v s).events = [] := by
  unfold handleJarPatch
  split
  · split <;> simp [findings]
  · simp [findings]

theorem findings_inspecting (cfg : Config) (path : String) :
    findings (if cfg.verbose then [Event.inspecting path] else []) = [] := by
  cases hv : cfg.verbose <;> simp [findings]

/-- The findings of an invocation whose archive opens are those of its loop over the
members. -/
theorem handleJar_findings_loop {σ : Type} (cfg : Config) (classify : Classifier)
    (flt : ScanFaults) (ps : String → String → σ → Outcome × σ) (path : String)
    (ms : List (String × Data)) (s : σ) (hnew : flt.newReader path = none) :
    findings (handleJar cfg classify flt ps path (.zip ms) s).events
      = findings (handleJar.members cfg classify flt ps path ms 0 false s).1.events := by
  rw [handleJar]
  simp only [hnew, Run.after]
  split
  · rw [findings_append, findings_inspecting]; rfl
  · rw [findings_append, findings_append, findings_inspecting, findings_patch]; simp

/-- An invocation that does not end the process has run its loop to the end. -/
theorem handleJar_loop_of_not_exited {σ : Type} (cfg : Config) (classify : Classifier)
    (flt : ScanFaults) (ps : String → String → σ → Outcome × σ) (path : String)
    (ms : List (String × Data)) (s : σ) (hnew : flt.newReader path = none)
    (h : (handleJar cfg classify flt ps path (.zip ms) s).exited = false) :
    (handleJar.members cfg classify flt ps path ms 0 false s).1.exited = false := by
  rw [handleJar] at h
  simp only [hnew, Run.after] at h
  split at h
  · rename_i hx
    simp only at hx h
    rw [h] at hx
    exact absurd hx (by simp)
  · rename_i hx
    simpa using hx

theorem mem_findings_cons (p n : String) (e : Event) (evs : List Event) :
    (p, n) ∈ findings (e :: evs) ↔ (∃ d, .finding p n d = e) ∨ (p, n) ∈ findings evs := by
  cases e <;> simp [findings]

theorem Flagged.mono {classify : Classifier} {examineV1 : Bool} {path : String}
    {ms ms1 : List (String × Data)} {p n : String}
    (h : Flagged classify examineV1 path (.zip ms) p n) (hsub : ∀ m ∈ ms, m ∈ ms1) :
    Flagged classify examineV1 path (.zip ms1) p n := by
  cases h with
  | direct _ _ _ c hin hext hfl => exact .direct _ _ _ c (hsub _ hin) hext hfl
  | nested _ _ inner d _ _ hin hext hfl => exact .nested _ _ inner d _ _ (hsub _ hin) hext hfl

theorem Flagged.isZip {classify : Classifier} {examineV1 : Bool} {path : String}
    {d : Data} {p n : String} (h : Flagged classify examineV1 path d p n) :
    ∃ ms, d = .zip ms := by
  cases h with
  | direct _ ms _ _ _ _ _ => exact ⟨ms, rfl⟩
  | nested _ ms _ _ _ _ _ _ _ => exact ⟨ms, rfl⟩

mutual
theorem handleJar_findings_sound {σ : Type} (cfg : Config) (classify : Classifier)
    (flt : ScanFaults) (ps : String → String → σ → Outcome × σ) :
    ∀ (path : String) (d : Data) (s : σ) (p n : String),
      (p, n) ∈ findings (handleJar cfg classify flt ps path d s).events →
      Flagged classify (!cfg.ignoreV1) path d p n
  | path, .zip ms, s, p, n => by
    intro h
    have hm := members_findings_sound cfg classify flt ps path ms 0 false s p n
    cases hn : flt.newReader path with
    | some e =>
      rw [handleJar, hn] at h
      simp only [findings_cantOpen] at h
      simp at h
    | none =>
      rw [handleJar_findings_loop _ _ _ _ _ _ _ hn] at h
      exact hm h
  | path, .raw _, s, p, n => by
    intro h
    have h2 : (p, n) ∈ findings (handleJarCantOpen cfg path s).events := h
    rw [findings_cantOpen] at h2; simp at h2
  | path, .unfinished _, s, p, n => by
    intro h
    have h2 : (p, n) ∈ findings (handleJarCantOpen cfg path s).events := h
    rw [findings_cantOpen] at h2; simp at h2
  | path, .tar _ _ _, s, p, n => by
    intro h
    have h2 : (p, n) ∈ findings (handleJarCantOpen cfg path s).events := h
    rw [findings_cantOpen] at h2; simp at h2
  | path, .torn, s, p, n => by
    intro h
    have h2 : (p, n) ∈ findings (handleJarCantOpen cfg path s).events := h
    rw [findings_cantOpen] at h2; simp at h2
theorem members_findings_sound {σ : Type} (cfg : Config) (classify : Classifier)
    (flt : ScanFaults) (ps : String → String → σ → Outcome × σ) :
    ∀ (path : String) (ms : List (String × Data)) (i : Nat) (v : Bool) (s : σ) (p n : String),
      (p, n) ∈ findings (handleJar.members cfg classify flt ps path ms i v s).1.events →
      Flagged classify (!cfg.ignoreV1) path (.zip ms) p n
  | path, [], i, v, s, p, n => by
    intro h; rw [handleJar.members] at h; simp [findings] at h
  | path, (name, content) :: rest, i, v, s, p, n => by
    intro h
    have h1 := handleJar_findings_sound cfg classify flt ps (path ++ "::" ++ name) content s p n
    have hrest : ∀ v1 s1,
        (p, n) ∈ findings (handleJar.members cfg classify flt ps path rest (i + 1) v1 s1).1.events →
        Flagged classify (!cfg.ignoreV1) path (.zip ((name, content) :: rest)) p n :=
      fun v1 s1 hx =>
        (members_findings_sound cfg classify flt ps path rest (i + 1) v1 s1 p n hx).mono
          (fun m hm => List.mem_cons_of_mem _ hm)
    have hskip : ∀ (e : Event) (evs : List Event), (∀ d, Event.finding p n d ≠ e) →
        (p, n) ∈ findings ([e] ++ evs) → (p, n) ∈ findings evs := by
      intro e evs he hx
      rw [List.singleton_append, mem_findings_cons] at hx
      rcases hx with ⟨d, hd⟩ | hx
      · exact absurd hd (he d)
      · exact hx
    rw [handleJar.members] at h
    split at h
    · rename_i hc
      split at h
      · exact hrest _ _ (hskip _ _ (by intro d hd; cases hd) h)
      · split at h
        · exact hrest _ _ (hskip _ _ (by intro d hd; cases hd) h)
        · split at h
          · rename_i hd
            simp only [Run.after] at h
            rw [List.singleton_append, mem_findings_cons] at h
            rcases h with ⟨d, hx⟩ | hx
            · cases hx
              exact .direct _ _ _ content (List.mem_cons_self _ _) hc hd
            · exact hrest _ _ hx
          · exact hrest _ _ h
    · split at h
      · rename_i hj
        split at h
        · exact hrest _ _ (hskip _ _ (by intro d hd; cases hd) h)
        · have key : ∀ inner : Run σ,
              ((p, n) ∈ findings inner.events →
                Flagged classify (!cfg.ignoreV1) (path ++ "::" ++ name) content p n) →
              (p, n) ∈ findings
                (if inner.exited = true then (inner, v)
                else
                  match handleJar.members cfg classify flt ps path rest (i + 1) v inner.state with
                  | (r, v) => (Run.after inner.events r, v)).1.events →
              Flagged classify (!cfg.ignoreV1) path (.zip ((name, content) :: rest)) p n := by
            intro inner hi hx
            split at hx
            · exact .nested _ _ name content _ _ (List.mem_cons_self _ _) hj (hi hx)
            · simp only [Run.after] at hx
              rw [findings_append] at hx
              rcases List.mem_append.mp hx with hx | hx
              · exact .nested _ _ name content _ _ (List.mem_cons_self _ _) hj (hi hx)
              · exact hrest _ _ hx
          revert h
          cases hr : flt.memberRead path i with
          | some e =>
            obtain ⟨msg, whole⟩ := e
            cases whole
            · refine key _ ?_
              intro hx
              simp only [Run.after, Bool.false_eq_true, if_false] at hx
              have := hskip _ _ (by intro d hd; cases hd) hx
              rw [findings_cantOpen] at this
              simp at this
            · refine key _ ?_
              intro hx
              simp only [Run.after, if_true] at hx
              exact h1 (hskip _ _ (by intro d hd; cases hd) hx)
          | none => exact key _ h1
      · exact hrest _ _ h
end

/-- With no failing read in the archive at `path`, a loop over its members that runs to
its end reports every flagged `.class` member, has run every nested invocation to its
end with its findings among those of the loop, and ends with the verdict set when it
was set before or a `.class` member is flagged. -/
theorem members_complete {σ : Type} (cfg : Config) (classify : Classifier)
    (flt : ScanFaults) (ps : String → String → σ → Outcome × σ) (path : String)
    (hopen : ∀ i, flt.memberOpen path i = none) (hread : ∀ i, flt.memberRead path i = none) :
    ∀ (ms : List (String × Data)) (i : Nat) (v : Bool) (s : σ),
      (handleJar.members cfg classify flt ps path ms i v s).1.exited = false →
      (∀ n c, (n, c) ∈ ms → ToLower (Ext n) = ".class" → classify c n (!cfg.ignoreV1) ≠ "" →
        (path, n) ∈ findings (handleJar.members cfg classify flt ps path ms i v s).1.events) ∧
      (∀ inner d, (inner, d) ∈ ms →
        (ToLower (Ext inner) = ".jar" ∨ ToLower (Ext inner) = ".war"
          ∨ ToLower (Ext inner) = ".ear") →
        ∃ s1, (handleJar cfg classify flt ps (path ++ "::" ++ inner) d s1).exited = false ∧
          ∀ x ∈ findings (handleJar cfg classify flt ps (path ++ "::" ++ inner) d s1).events,
            x ∈ findings (handleJar.members cfg classify flt ps path ms i v s).1.events) ∧
      ((v = true ∨ ∃ m ∈ ms, ToLower (Ext m.1) = ".class" ∧
          classify m.2 m.1 (!cfg.ignoreV1) ≠ "") →
        (handleJar.members cfg classify flt ps path ms i v s).2 = true) := by
  intro ms
  induction ms with
  | nil =>
    intro i v s _
    rw [handleJar.members]
    refine ⟨?_, ?_, ?_⟩
    · intro n c h; simp at h
    · intro inner d h; simp at h
    · intro h
      rcases h with h | ⟨m, hm, -⟩
      · exact h
      · simp at hm
  | cons m rest ih =>
    intro i v s hex
    obtain ⟨name, content⟩ := m
    rw [handleJar.members] at hex ⊢
    simp only [hopen, hread] at hex ⊢
    by_cases hc : ToLower (Ext name) = ".class"
    · have hnj : ¬ (ToLower (Ext name) = ".jar" ∨ ToLower (Ext name) = ".war"
          ∨ ToLower (Ext name) = ".ear") := by
        rw [hc]; decide
      by_cases hd : classify content name (!cfg.ignoreV1) = ""
      · simp only [hc, hd, if_true, ne_eq, not_true_eq_false, if_false] at hex ⊢
        obtain ⟨a, b, c⟩ := ih (i + 1) v s hex
        refine ⟨?_, ?_, ?_⟩
        · intro n1 c1 hin hext hfl
          rcases List.mem_cons.mp hin with heq | hin1
          · cases heq; exact absurd hd hfl
          · exact a n1 c1 hin1 hext hfl
        · intro inner d hin hext
          rcases List.mem_cons.mp hin with heq | hin1
          · cases heq; exact absurd hext hnj
          · exact b inner d hin1 hext
        · intro h
          apply c
          rcases h with h | ⟨m, hm, h1, h2⟩
          · exact Or.inl h
          · rcases List.mem_cons.mp hm with heq | hm1
            · subst heq; exact absurd hd h2
            · exact Or.inr ⟨m, hm1, h1, h2⟩
      · simp only [hc, hd, if_true, ne_eq, not_false_eq_true, Run.after] at hex ⊢
        obtain ⟨a, b, c⟩ := ih (i + 1) true s hex
        refine ⟨?_, ?_, ?_⟩
        · intro n1 c1 hin hext hfl
          rw [findings_append]
          rcases List.mem_cons.mp hin with heq | hin1
          · cases heq
            exact List.mem_append_left _ (by simp [findings])
          · exact List.mem_append_right _ (a n1 c1 hin1 hext hfl)
        · intro inner d hin hext
          rcases List.mem_cons.mp hin with heq | hin1
          · cases heq; exact absurd hext hnj
          · obtain ⟨s1, e1, e2⟩ := b inner d hin1 hext
            refine ⟨s1, e1, fun x hx => ?_⟩
            rw [findings_append]
            exact List.mem_append_right _ (e2 x hx)
        · intro _
          exact c (Or.inl rfl)
    · have hlift : (v = true ∨ ∃ m ∈ (name, content) :: rest, ToLower (Ext m.1) = ".class" ∧
            classify m.2 m.1 (!cfg.ignoreV1) ≠ "") →
          (v = true ∨ ∃ m ∈ rest, ToLower (Ext m.1) = ".class" ∧
            classify m.2 m.1 (!cfg.ignoreV1) ≠ "") := by
        intro h
        rcases h with h | ⟨m, hm, h1, h2⟩
        · exact Or.inl h
        · rcases List.mem_cons.mp hm with heq | hm1
          · subst heq; exact absurd h1 hc
          · exact Or.inr ⟨m, hm1, h1, h2⟩
      by_cases hj : ToLower (Ext name) = ".jar" ∨ ToLower (Ext name) = ".war"
          ∨ ToLower (Ext name) = ".ear"
      · simp only [hc, if_false, hj, if_true] at hex ⊢
        cases hie : (handleJar cfg classify flt ps (path ++ "::" ++ name) content s).exited with
        | true =>
          rw [hie] at hex
          simp only [if_true] at hex
          rw [hie] at hex
          exact absurd hex (by simp)
        | false =>
          rw [hie] at hex
          simp only [Bool.false_eq_true, if_false, Run.after] at hex ⊢
          obtain ⟨a, b, c⟩ := ih (i + 1) v
            (handleJar cfg classify flt ps (path ++ "::" ++ name) content s).state hex
          refine ⟨?_, ?_, ?_⟩
          · intro n1 c1 hin hext hfl
            rw [findings_append]
            rcases List.mem_cons.mp hin with heq | hin1
            · cases heq; exact absurd hext hc
            · exact List.mem_append_right _ (a n1 c1 hin1 hext hfl)
          · intro inner d hin hext
            rcases List.mem_cons.mp hin with heq | hin1
            · cases heq
              refine ⟨s, hie, fun x hx => ?_⟩
              rw [findings_append]
              exact List.mem_append_left _ hx
            · obtain ⟨s1, e1, e2⟩ := b inner d hin1 hext
              refine ⟨s1, e1, fun x hx => ?_⟩
              rw [findings_append]
              exact List.mem_append_right _ (e2 x hx)
          · intro h
            exact c (hlift h)
      · simp only [hc, if_false, hj] at hex ⊢
        obtain ⟨a, b, c⟩ := ih (i + 1) v s hex
        refine ⟨?_, ?_, ?_⟩
        · intro n1 c1 hin hext hfl
          rcases List.mem_cons.mp hin with heq | hin1
          · cases heq; exact absurd hext hc
          · exact a n1 c1 hin1 hext hfl
        · intro inner d hin hext
          rcases List.mem_cons.mp hin with heq | hin1
          · cases heq; exact absurd hext hj
          · exact b inner d hin1 hext
        · intro h
          exact c (hlift h)

/-- With no failing library call, an invocation whose loop runs to its end reports
every entry flagged at any depth. -/
theorem handleJar_findings_complete {σ : Type} (cfg : Config) (classify : Classifier)
    (flt : ScanFaults) (ps : String → String → σ → Outcome × σ) (hflt : flt.NoFault)
    (path : String) (d : Data) (p n : String)
    (h : Flagged classify (!cfg.ignoreV1) path d p n) :
    ∀ (ms : List (String × Data)) (s : σ), d = .zip ms →
      (handleJar.members cfg classify flt ps path ms 0 false s).1.exited = false →
      (p, n) ∈ findings (handleJar cfg classify flt ps path d s).events := by
  induction h with
  | direct path ms name content hin hext hfl =>
    intro ms1 s hd hex
    cases hd
    rw [handleJar_findings_loop _ _ _ _ _ _ _ (hflt path).1]
    exact (members_complete cfg classify flt ps path (hflt path).2.1 (hflt path).2.2
      ms 0 false s hex).1 name content hin hext hfl
  | nested path ms inner d p name hin hext hfl ih =>
    intro ms1 s hd hex
    cases hd
    rw [handleJar_findings_loop _ _ _ _ _ _ _ (hflt path).1]
    obtain ⟨s1, hne, hsub⟩ := (members_complete cfg classify flt ps path (hflt path).2.1
      (hflt path).2.2 ms 0 false s hex).2.1 inner d hin hext
    obtain ⟨ims, hz⟩ := hfl.isZip
    subst hz
    exact hsub _ (ih ims s1 rfl
      (handleJar_loop_of_not_exited _ _ _ _ _ _ _ (hflt _).1 hne))

/-- An invocation calls `PatchAndSwap` with its own path exactly when its archive
opens, its loop runs to its end with the verdict set, and patching is on. -/
theorem handleJar_patchCalls_own {σ : Type} (cfg : Config) (classify : Classifier)
    (flt : ScanFaults) (ps : String → String → σ → Outcome × σ) (path : String)
    (ms : List (String × Data)) (s : σ) :
    path ∈ patchCalls (handleJar cfg classify flt ps path (.zip ms) s).events ↔
      flt.newReader path = none ∧
      (handleJar.members cfg classify flt ps path ms 0 false s).1.exited = false ∧
      (handleJar.members cfg classify flt ps path ms 0 false s).2 = true ∧
      cfg.applyPatches = true := by
  have habove := members_patchCalls cfg classify flt ps path ms 0 false s
  have hfront : path ∉ patchCalls
      ((if cfg.verbose then [Event.inspecting path] else []) ++
        (handleJar.members cfg classify flt ps path ms 0 false s).1.events) := by
    intro h
    rw [patchCalls_append] at h
    rcases List.mem_append.mp h with h1 | h1
    · cases hvb : cfg.verbose <;> simp [hvb, patchCalls] at h1
    · have := habove path h1
      omega
  cases hn : flt.newReader path with
  | some e =>
    rw [handleJar, hn]
    constructor
    · intro h
      have := patchCallsAbove_cantOpen cfg path s path path h
      omega
    · intro h; exact absurd h.1 (by simp)
  | none =>
    rw [handleJar]
    simp only [hn, Run.after, true_and]
    cases hex : (handleJar.members cfg classify flt ps path ms 0 false s).1.exited with
    | true =>
      simp only [if_true]
      constructor
      · intro h; exact absurd h hfront
      · intro h; exact absurd h.1 (by simp)
    | false =>
      simp only [Bool.false_eq_true, if_false, true_and]
      rw [patchCalls_append]
      constructor
      · intro h
        rcases List.mem_append.mp h with h1 | h1
        · exact absurd h1 hfront
        · unfold handleJarPatch at h1
          split at h1
          · rename_i hv
            exact ⟨hv.1, hv.2⟩
          · simp [patchCalls] at h1
      · intro h
        apply List.mem_append_right
        unfold handleJarPatch
        rw [if_pos ⟨h.1, h.2⟩]
        split <;> simp [patchCalls]

/-- C2, amended. Findings at any nesting depth are reported; the verdict stays local.
For every archive at `path` with members `ms`, with no failing library call and the loop
over the members running to its end (as it always does with patching off; with patching
on a failed remediation of a nested archive ends the process): `handleJar` reports
exactly the entries flagged at any nesting depth, each under the path of the archive
that holds it (`path + "::" + inner` for a class in the nested archive `inner`, and so
on downwards) with the name of the flagged entry; the verdict of the invocation for
`path` is set exactly when a direct `.class` member of the archive is flagged; and
`PatchAndSwap` is called with `path` exactly when patching is on and a direct `.class`
member is flagged. -/
theorem handleJar_findings_any_depth_verdict_direct {σ : Type} (cfg : Config)
    (classify : Classifier) (flt : ScanFaults) (ps : String → String → σ → Outcome × σ)
    (path : String) (ms : List (String × Data)) (s : σ)
    (hflt : flt.NoFault)
    (hloop : cfg.applyPatches = false ∨
      (handleJar.members cfg classify flt ps path ms 0 false s).1.exited = false) :
    (∀ p n, (p, n) ∈ findings (handleJar cfg classify flt ps path (.zip ms) s).events ↔
      Flagged classify (!cfg.ignoreV1) path (.zip ms) p n) ∧
    ((handleJar.members cfg classify flt ps path ms 0 false s).2 = true ↔
      ∃ m ∈ ms, ToLower (Ext m.1) = ".class" ∧ classify m.2 m.1 (!cfg.ignoreV1) ≠ "") ∧
    (path ∈ patchCalls (handleJar cfg classify flt ps path (.zip ms) s).events ↔
      cfg.applyPatches = true ∧
        ∃ m ∈ ms, ToLower (Ext m.1) = ".class" ∧ classify m.2 m.1 (!cfg.ignoreV1) ≠ "") := by
  have hex : (handleJar.members cfg classify flt ps path ms 0 false s).1.exited = false := by
    rcases hloop with h | h
    · exact (members_noPatch cfg classify flt ps h path ms 0 false s).1
    · exact h
  have hverdict : (handleJar.members cfg classify flt ps path ms 0 false s).2 = true ↔
      ∃ m ∈ ms, ToLower (Ext m.1) = ".class" ∧ classify m.2 m.1 (!cfg.ignoreV1) ≠ "" := by
    constructor
    · intro hv
      rcases members_verdict cfg classify flt ps path ms 0 false s hv with h | h
      · exact absurd h (by simp)
      · obtain ⟨x, hx⟩ := List.exists_mem_of_ne_nil _ h
        simp only [flaggedClasses, List.mem_map, List.mem_filter, decide_eq_true_eq] at hx
        obtain ⟨m, ⟨hm, h1, h2⟩, -⟩ := hx
        exact ⟨m, hm, h1, h2⟩
    · intro h
      exact (members_complete cfg classify flt ps path (hflt path).2.1 (hflt path).2.2
        ms 0 false s hex).2.2 (Or.inr h)
  refine ⟨fun p n => ⟨handleJar_findings_sound cfg classify flt ps path (.zip ms) s p n,
    fun h => handleJar_findings_complete cfg classify flt ps hflt path (.zip ms) p n h ms s
      rfl hex⟩, hverdict, ?_⟩
  rw [handleJar_patchCalls_own, hverdict]
  constructor
  · intro h; exact ⟨h.2.2.2, h.2.2.1⟩
  · intro h; exact ⟨(hflt path).1, hex, h.2, h.1⟩

/-- C2, amended, witness. In `deep.jar`, which holds `mid.jar`, which holds `inner.jar`
with the flagged `Bad.class`, the finding two levels down is reported under
`deep.jar::mid.jar::inner.jar`; in `app.jar` with `Bad.class` as a direct member and
patching on, `PatchAndSwap` is called with `app.jar`. -/
theorem handleJar_findings_any_depth_verdict_direct_witness :
    ("deep.jar::mid.jar::inner.jar", "Bad.class")
      ∈ findings (handleJar (plainConfig []) flagsBadClass noScanFaults
          (swapOnDisk flagsBadClass) "deep.jar" (.zip deepMembers) deepDisk).events ∧
    "app.jar" ∈ patchCalls (handleJar patchingConfig flagsBadClass noScanFaults
      (swapOnDisk flagsBadClass) "app.jar" (.zip directMembers) directDisk).events :=
  ⟨((handleJar_findings_any_depth_verdict_direct (plainConfig []) flagsBadClass noScanFaults
      (swapOnDisk flagsBadClass) "deep.jar" deepMembers deepDisk
      (fun _ => ⟨rfl, fun _ => rfl, fun _ => rfl⟩) (Or.inl rfl)).1
        "deep.jar::mid.jar::inner.jar" "Bad.class").mpr
      (.nested "deep.jar" deepMembers "mid.jar"
        (.zip [("inner.jar", .zip [("Bad.class", .raw [1])])]) _ _
        (List.mem_cons_of_mem _ (List.mem_cons_self _ _)) (Or.inl (by decide))
        (.nested ("deep.jar" ++ "::" ++ "mid.jar") _ "inner.jar"
          (.zip [("Bad.class", .raw [1])]) _ _
          (List.mem_cons_self _ _) (Or.inl (by decide))
          (.direct ("deep.jar" ++ "::" ++ "mid.jar" ++ "::" ++ "inner.jar") _ "Bad.class"
            (.raw [1]) (List.mem_cons_self _ _) (by decide) (by decide)))),
   (handleJar_findings_any_depth_verdict_direct patchingConfig flagsBadClass noScanFaults
      (swapOnDisk flagsBadClass) "app.jar" directMembers directDisk
      (fun _ => ⟨rfl, fun _ => rfl, fun _ => rfl⟩) (Or.inr (by decide))).2.2.mpr
      ⟨rfl, ("Bad.class", .raw [1]), List.mem_cons_of_mem _ (List.mem_cons_self _ _),
        by decide, by decide⟩⟩

/-- C6. The rewriter does not abort with an error on every failure. On `app.jar` with
members A, B, C: when `member.Open()` fails (and closing the output succeeds) `patch`
does not return an error but goes on to read the nil reader and panics; when the final
`zw.Close()` fails `patch` returns nil, leaving at dest an archive that was never
finalised. The source is untouched in both runs. -/
theorem patch_failure_not_reported :
    (patch flagsB memberOpenFails root (singleFile "app.jar" (fileOf (.zip abc)))
      "app.jar" "app.jar.new" true).1 = .panicked ∧
    (patch flagsB finalizeFails root (singleFile "app.jar" (fileOf (.zip abc)))
      "app.jar" "app.jar.new" true).1 = .returned none ∧
    (∃ g, (patch flagsB finalizeFails root (singleFile "app.jar" (fileOf (.zip abc)))
      "app.jar" "app.jar.new" true).2 "app.jar.new" = some g ∧
      g.data = .unfinished [("A", .raw [1]), ("C", .raw [3])]) ∧
    (patch flagsB memberOpenFails root (singleFile "app.jar" (fileOf (.zip abc)))
      "app.jar" "app.jar.new" true).2 "app.jar" = some (fileOf (.zip abc)) ∧
    (patch flagsB finalizeFails root (singleFile "app.jar" (fileOf (.zip abc)))
      "app.jar" "app.jar.new" true).2 "app.jar" = some (fileOf (.zip abc)) :=
  ⟨rfl, rfl, ⟨_, rfl, rfl⟩, rfl, rfl⟩

/-- C9, counterexample. The entry `notes.txt` does not have the extension `.class`, yet
with a classifier that flags it `patch` leaves it out of the rewritten archive, while
`handleJar` reports no finding for the same archive. -/
theorem patch_drops_non_class_entry :
    ToLower (Ext "notes.txt") ≠ ".class" ∧
    (∃ g, (patch flagsAll noPatchFaults root (singleFile "app.jar" (fileOf (.zip notesOnly)))
      "app.jar" "app.jar.new" true).2 "app.jar.new" = some g ∧ g.data = .zip []) ∧
    findings (handleJar (plainConfig []) flagsAll noScanFaults failingSwap "app.jar"
      (.zip notesOnly) ()).events = [] :=
  ⟨by decide, ⟨_, rfl, rfl⟩, by decide⟩

/-- C9, amended. `patch` evaluates every entry, whatever its extension: with no failing
step the rewritten archive holds exactly the members for which the classifier returns
the empty description. The members it drops include every top-level finding `handleJar`
reports for the same archive under the same legacy flag (these are the flagged `.class`
members), and the two coincide when the classifier flags no entry without the
extension `.class`. -/
theorem patch_drops_flagged_any_extension {σ : Type} (classify : Classifier)
    (flt : PatchFaults) (proc : Proc) (fs : FS) (source dest : String) (f : File)
    (members : List (String × Data)) (cfg : Config) (sflt : ScanFaults)
    (ps : String → String → σ → Outcome × σ) (s : σ)
    (hflt : flt.NoFault) (hsrc : fs source = some f) (hzip : f.data = .zip members)
    (hcfg : cfg.applyPatches = false) (hnew : sflt.newReader source = none)
    (hopen : ∀ i, sflt.memberOpen source i = none)
    (hread : ∀ i, sflt.memberRead source i = none) :
    (∃ g, (patch classify flt proc fs source dest (!cfg.ignoreV1)).2 dest = some g ∧
      g.data = .zip (members.filter (fun m => classify m.2 m.1 (!cfg.ignoreV1) = ""))) ∧
    topFindings source (handleJar cfg classify sflt ps source (.zip members) s).events
      = (members.filter (fun m => ToLower (Ext m.1) = ".class"
          ∧ classify m.2 m.1 (!cfg.ignoreV1) ≠ "")).map (fun m => m.1) ∧
    (∀ n ∈ topFindings source (handleJar cfg classify sflt ps source (.zip members) s).events,
      n ∈ dropped classify (!cfg.ignoreV1) members) ∧
    ((∀ m ∈ members, ToLower (Ext m.1) ≠ ".class" → classify m.2 m.1 (!cfg.ignoreV1) = "") →
      dropped classify (!cfg.ignoreV1) members
        = topFindings source (handleJar cfg classify sflt ps source (.zip members) s).events) := by
  have htop := handleJar_topFindings cfg classify sflt ps hcfg source hnew hopen hread members s
  have hloop := patchLoop_noFault classify (!cfg.ignoreV1) flt hflt members 0 []
  obtain ⟨hopenr, hcreate, -, -, -, -, hzw, hof⟩ := hflt
  have hmem : openZip flt.openReader (fs source) source = .ok members := by
    cases f with
    | mk d u g m => simp only at hzip; subst hzip; simp [openZip, hopenr, hsrc]
  obtain ⟨g0, hg0⟩ := createFile_same proc fs dest
  refine ⟨?_, htop, ?_, ?_⟩
  · refine ⟨{ g0 with data := .zip (retained classify (!cfg.ignoreV1) members) }, ?_, rfl⟩
    simp [patch, hmem, hcreate, hloop, hzw, finalised, setData_same _ _ _ _ hg0]
  · rw [htop]
    intro n hn
    simp only [flaggedClasses, List.mem_map, List.mem_filter, decide_eq_true_eq] at hn
    obtain ⟨m, ⟨hm, -, hd⟩, rfl⟩ := hn
    simp only [dropped, List.mem_map, List.mem_filter, decide_eq_true_eq]
    exact ⟨m, ⟨hm, hd⟩, rfl⟩
  · intro hall
    rw [htop]
    simp only [dropped, flaggedClasses]
    congr 1
    apply List.filter_congr
    intro m hm
    by_cases hc : ToLower (Ext m.1) = ".class"
    · simp [hc]
    · simp [hc, hall m hm hc]

/-- Witness for C9, amended: the archive `mixed` with the classifier `flagsBadClass`. -/
theorem patch_drops_flagged_any_extension_witness :
    (∃ g, (patch flagsBadClass noPatchFaults root (singleFile "app.jar" (fileOf (.zip mixed)))
        "app.jar" "app.jar.new" (!(plainConfig []).ignoreV1)).2 "app.jar.new" = some g ∧
      g.data = .zip (mixed.filter
        (fun m => flagsBadClass m.2 m.1 (!(plainConfig []).ignoreV1) = ""))) ∧
    topFindings "app.jar" (handleJar (plainConfig []) flagsBadClass noScanFaults failingSwap
        "app.jar" (.zip mixed) ()).events
      = (mixed.filter (fun m => ToLower (Ext m.1) = ".class"
          ∧ flagsBadClass m.2 m.1 (!(plainConfig []).ignoreV1) ≠ "")).map (fun m => m.1) ∧
    (∀ n ∈ topFindings "app.jar" (handleJar (plainConfig []) flagsBadClass noScanFaults
        failingSwap "app.jar" (.zip mixed) ()).events,
      n ∈ dropped flagsBadClass (!(plainConfig []).ignoreV1) mixed) ∧
    ((∀ m ∈ mixed, ToLower (Ext m.1) ≠ ".class" →
        flagsBadClass m.2 m.1 (!(plainConfig []).ignoreV1) = "") →
      dropped flagsBadClass (!(plainConfig []).ignoreV1) mixed
        = topFindings "app.jar" (handleJar (plainConfig []) flagsBadClass noScanFaults
            failingSwap "app.jar" (.zip mixed) ()).events) :=
  patch_drops_flagged_any_extension flagsBadClass noPatchFaults root
    (singleFile "app.jar" (fileOf (.zip mixed))) "app.jar" "app.jar.new" (fileOf (.zip mixed))
    mixed (plainConfig []) noScanFaults failingSwap ()
    ⟨rfl, rfl, fun _ => rfl, fun _ => rfl, fun _ => rfl, fun _ => rfl, rfl, rfl⟩
    rfl rfl rfl rfl (fun _ => rfl) (fun _ => rfl)

/-! ## Paths: the backup never coincides with the source or the temp file -/

theorem dropWhile_append_stop (p : Char → Bool) (a f : List Char) (b : Char) (hb : p b = false) :
    (a ++ b :: f).dropWhile p = a.dropWhile p ++ b :: f := by
  induction a with
  | nil => simp [List.dropWhile, hb]
  | cons c a ih =>
    by_cases hc : p c = true
    · simp [List.dropWhile, hc, ih]
    · simp [List.dropWhile, hc]

/-- The last step of `Clean`: a final path element of three or more characters is copied
to the output as it is. -/
theorem cleanLoop_last (rooted : Bool) (fuel : Nat) (f out : List Char) (dd : Nat)
    (hs : '/' ∉ f) (hl : 3 ≤ f.length) :
    ∃ x, cleanLoop rooted (fuel + 1) f out dd = f.reverse ++ x := by
  match f, hl with
  | c :: d :: e :: r, _ =>
    have hc : c ≠ '/' := fun h => hs (by simp [h])
    have hd : d ≠ '/' := fun h => hs (by simp [h])
    have he : e ≠ '/' := fun h => hs (by simp [h])
    have htake : (c :: d :: e :: r).takeWhile (fun x => decide (x ≠ '/')) = c :: d :: e :: r := by
      rw [List.takeWhile_eq_self_iff]
      intro x hx
      have : x ≠ '/' := fun h => hs (h ▸ hx)
      simpa using this
    have hdrop : (c :: d :: e :: r).dropWhile (fun x => decide (x ≠ '/')) = [] := by
      rw [List.dropWhile_eq_nil_iff]
      intro x hx
      have : x ≠ '/' := fun h => hs (h ▸ hx)
      simpa using this
    simp only [cleanLoop, hc, if_false, List.head?_cons, Option.some.injEq, hd, List.tail_cons, he,
      or_self, and_false, reduceCtorEq, false_or]
    rw [htake, hdrop]
    cases fuel <;> exact ⟨_, rfl⟩

theorem cleanLoop_step (rooted : Bool) (fuel : Nat) (c : Char) (t out : List Char) (dd : Nat) :
    cleanLoop rooted (fuel + 1) (c :: t) out dd =
      if c = '/' then
        cleanLoop rooted fuel t out dd
      else if c = '.' ∧ (t = [] ∨ t.head? = some '/') then
        cleanLoop rooted fuel t out dd
      else if c = '.' ∧ t.head? = some '.' ∧ (t.tail = [] ∨ t.tail.head? = some '/') then
        match out with
        | o :: out1 =>
          if dd < (o :: out1).length then
            cleanLoop rooted fuel t.tail (cleanBacktrack dd out1 o) dd
          else if rooted then
            cleanLoop rooted fuel t.tail out dd
          else
            cleanLoop rooted fuel t.tail ('.' :: '.' :: '/' :: out) (out.length + 3)
        | [] =>
          if rooted then cleanLoop rooted fuel t.tail out dd
          else cleanLoop rooted fuel t.tail ['.', '.'] 2
      else
        cleanLoop rooted fuel ((c :: t).dropWhile (fun x => x ≠ '/'))
          (((c :: t).takeWhile (fun x => x ≠ '/')).reverse ++
            (if (rooted ∧ out.length ≠ 1) ∨ (¬ rooted ∧ out.length ≠ 0) then '/' :: out
              else out)) dd := by
  cases out <;> simp only [cleanLoop]

/-- The loop of `Clean` on an input that ends in a separator followed by a final element
of three or more characters: whatever comes before, the output ends with that element. -/
theorem cleanLoop_through (rooted : Bool) (f : List Char) (hs : '/' ∉ f) (hl : 3 ≤ f.length) :
    ∀ (fuel : Nat) (pre out : List Char) (dd : Nat), (pre ++ '/' :: f).length ≤ fuel →
      ∃ x, cleanLoop rooted fuel (pre ++ '/' :: f) out dd = f.reverse ++ x := by
  intro fuel
  induction fuel with
  | zero => intro pre out dd h; simp at h
  | succ fuel ih =>
    intro pre out dd h
    cases pre with
    | nil =>
      simp only [List.nil_append, List.length_cons] at h
      obtain ⟨k, rfl⟩ : ∃ k, fuel = k + 1 := ⟨fuel - 1, by omega⟩
      rw [List.nil_append, cleanLoop_step, if_pos rfl]
      exact cleanLoop_last rooted k f out dd hs hl
    | cons c pre1 =>
      simp only [List.cons_append, List.length_cons, List.length_append] at h
      have hlen1 : (pre1 ++ '/' :: f).length ≤ fuel := by
        simp only [List.length_append, List.length_cons]; omega
      obtain ⟨t, ht⟩ : ∃ t, t = pre1 ++ '/' :: f := ⟨_, rfl⟩
      rw [List.cons_append, ← ht, cleanLoop_step]
      by_cases h1 : c = '/'
      · rw [if_pos h1, ht]; exact ih pre1 out dd hlen1
      · rw [if_neg h1]
        by_cases h2 : c = '.' ∧ (t = [] ∨ t.head? = some '/')
        · rw [if_pos h2, ht]; exact ih pre1 out dd hlen1
        · rw [if_neg h2]
          by_cases h3 : c = '.' ∧ t.head? = some '.' ∧ (t.tail = [] ∨ t.tail.head? = some '/')
          · rw [if_pos h3]
            cases pre1 with
            | nil => rw [ht] at h3; simp at h3
            | cons d pre2 =>
              have hlen2 : (pre2 ++ '/' :: f).length ≤ fuel := by
                simp only [List.length_append, List.length_cons] at hlen1 ⊢; omega
              have htl : t.tail = pre2 ++ '/' :: f := by rw [ht]; rfl
              rw [htl]
              cases out with
              | nil =>
                simp only []
                split_ifs <;> exact ih pre2 _ _ hlen2
              | cons o out1 =>
                simp only []
                split_ifs <;> exact ih pre2 _ _ hlen2
          · rw [if_neg h3]
            have hdrop : (c :: t).dropWhile (fun x => decide (x ≠ '/'))
                = pre1.dropWhile (fun x => decide (x ≠ '/')) ++ '/' :: f := by
              rw [List.dropWhile_cons]
              simp only [h1, ne_eq, not_false_eq_true, decide_True, if_true]
              rw [ht]
              exact dropWhile_append_stop _ _ _ _ (by simp)
            rw [hdrop]
            refine ih _ _ _ ?_
            have := (List.dropWhile_sublist (l := pre1) (fun x => decide (x ≠ '/'))).length_le
            simp only [List.length_append, List.length_cons]
            omega

/-- The function `Clean` keeps a final path element of three or more characters as the end of its
result. -/
theorem Clean_suffix (p : String) (pre f : List Char) (hs : '/' ∉ f) (hl : 3 ≤ f.length)
    (hp : p.toList = pre ++ '/' :: f ∨ p.toList = f) : ∃ x, (Clean p).toList = x ++ f := by
  have key : ∀ out : List Char, (∃ x, out = f.reverse ++ x) →
      ∃ x, (if out = [] then "." else (String.mk out.reverse)).toList = x ++ f := by
    rintro out ⟨x, rfl⟩
    have hne : f.reverse ++ x ≠ [] := by
      intro h
      have h1 := (List.append_eq_nil.mp h).1
      rw [List.reverse_eq_nil_iff] at h1
      rw [h1] at hl
      simp at hl
    rw [if_neg hne]
    exact ⟨x.reverse, by simp [String.toList]⟩
  unfold Clean
  rcases hp with hp | hp
  · cases pre with
    | nil =>
      rw [hp]
      simp only [List.nil_append, if_true]
      obtain ⟨k, hk⟩ : ∃ k, f.length = k + 1 := ⟨f.length - 1, by omega⟩
      exact key _ (cleanLoop_last true f.length f _ _ hs hl)
    | cons c pre1 =>
      rw [hp]
      simp only [List.cons_append]
      by_cases hc : c = '/'
      · simp only [hc, if_true]
        exact key _ (cleanLoop_through true f hs hl _ pre1 _ _ (by simp))
      · simp only [hc, if_false]
        have := cleanLoop_through false f hs hl ((pre1 ++ '/' :: f).length + 2) (c :: pre1) [] 0
          (by simp)
        exact key _ this
  · match f, hl, hp with
    | c :: d :: e :: r, hl1, hp =>
      rw [hp]
      have hc : c ≠ '/' := fun h => hs (by simp [h])
      simp only [hc, if_false]
      exact key _ (cleanLoop_last false _ _ _ _ hs hl1)

/-- The function `Join` keeps a file name of three or more characters without separator as the end
of its result. -/
theorem Join_suffix (a b : String) (hs : '/' ∉ b.toList) (hl : 3 ≤ b.toList.length) :
    ∃ x, (Join a b).toList = x ++ b.toList := by
  unfold Join
  by_cases ha : a = ""
  · have hb : b ≠ "" := by
      intro h; rw [h] at hl; simp at hl
    simp only [ha, ne_eq, not_true_eq_false, if_false, hb, not_false_eq_true, if_true]
    exact Clean_suffix b [] b.toList hs hl (Or.inr rfl)
  · simp only [ne_eq, ha, not_false_eq_true, if_true]
    exact Clean_suffix _ a.toList b.toList hs hl (Or.inl (by simp [String.toList]))

theorem digitChar_ne_slash : ∀ n, n < 10 → Nat.digitChar n ≠ '/' := by
  decide

theorem toDigitsCore_no_slash : ∀ (fuel n : Nat) (ds : List Char), '/' ∉ ds →
    '/' ∉ Nat.toDigitsCore 10 fuel n ds := by
  intro fuel
  induction fuel with
  | zero => intro n ds h; simpa [Nat.toDigitsCore] using h
  | succ fuel ih =>
    intro n ds h
    have hd : '/' ∉ Nat.digitChar (n % 10) :: ds := by
      intro hin
      rcases List.mem_cons.mp hin with h1 | h1
      · exact digitChar_ne_slash _ (Nat.mod_lt _ (by decide)) h1.symm
      · exact h h1
    simp only [Nat.toDigitsCore]
    split
    · exact hd
    · exact ih _ _ hd

theorem natRepr_no_slash (n : Nat) : '/' ∉ (Nat.repr n).toList := by
  have := toDigitsCore_no_slash (n + 1) n [] (by simp)
  simpa [Nat.repr, Nat.toDigits, String.toList, List.asString] using this

theorem FormatInt_no_slash (i : Int) : '/' ∉ (FormatInt i).toList := by
  unfold FormatInt
  cases i with
  | ofNat m => exact natRepr_no_slash m
  | negSucc m =>
    show '/' ∉ ("-" ++ Nat.repr (m + 1)).toList
    intro h
    have h1 : '/' ∈ ("-".toList ++ (Nat.repr (m + 1)).toList) := by
      simpa [String.toList] using h
    rcases List.mem_append.mp h1 with h2 | h2
    · revert h2; decide
    · exact natRepr_no_slash _ h2

theorem head?_dropWhile_false (p : Char → Bool) (l : List Char) (c : Char)
    (h : (l.dropWhile p).head? = some c) : p c = false := by
  induction l with
  | nil => simp at h
  | cons a l ih =>
    by_cases ha : p a = true
    · rw [List.dropWhile_cons_of_pos ha] at h; exact ih h
    · rw [List.dropWhile_cons_of_neg ha] at h
      simp only [List.head?_cons, Option.some.injEq] at h
      rw [← h]; simpa using ha

/-- What the three `TrimLeft` calls of `PatchAndSwap` take away: a run of dots, then a
run of slashes. What is left does not begin with a slash, and begins with a dot only
behind a slash. -/
theorem trimmed_shape (source : String) :
    ∃ D Sl : List Char,
      source.toList = D ++ Sl ++ (sourceWithLeadingDotsAndSlashesTrimed source).toList ∧
      (∀ c ∈ D, c = '.') ∧ (∀ c ∈ Sl, c = '/') ∧
      (sourceWithLeadingDotsAndSlashesTrimed source).toList.head? ≠ some '/' ∧
      (Sl = [] → (sourceWithLeadingDotsAndSlashesTrimed source).toList.head? ≠ some '.') := by
  obtain ⟨l0, hl0⟩ : ∃ l0, l0 = source.toList := ⟨_, rfl⟩
  obtain ⟨p1, hp1⟩ : ∃ p1 : Char → Bool, p1 = fun c => "..".toList.contains c := ⟨_, rfl⟩
  obtain ⟨p2, hp2⟩ : ∃ p2 : Char → Bool, p2 = fun c => ".".toList.contains c := ⟨_, rfl⟩
  obtain ⟨p3, hp3⟩ : ∃ p3 : Char → Bool, p3 = fun c => "/".toList.contains c := ⟨_, rfl⟩
  have h1 : ∀ c, p1 c = true → c = '.' := by
    intro c hc; rw [hp1] at hc
    have : c ∈ ['.', '.'] := by simpa using hc
    simpa using this
  have h2 : ∀ c, p2 c = false → c ≠ '.' := by
    intro c hc hEq; rw [hp2, hEq] at hc; revert hc; decide
  have h2a : ∀ c, p2 c = true → c = '.' := by
    intro c hc; rw [hp2] at hc
    have : c ∈ ['.'] := by simpa using hc
    simpa using this
  have h3 : ∀ c, p3 c = true → c = '/' := by
    intro c hc; rw [hp3] at hc
    have : c ∈ ['/'] := by simpa using hc
    simpa using this
  have h3a : ∀ c, p3 c = false → c ≠ '/' := by
    intro c hc hEq; rw [hp3, hEq] at hc; revert hc; decide
  have hS : (sourceWithLeadingDotsAndSlashesTrimed source).toList
      = ((l0.dropWhile p1).dropWhile p2).dropWhile p3 := by
    rw [hl0, hp1, hp2, hp3]; rfl
  rw [hS, ← hl0]
  refine ⟨l0.takeWhile p1 ++ (l0.dropWhile p1).takeWhile p2,
    ((l0.dropWhile p1).dropWhile p2).takeWhile p3, ?_, ?_, ?_, ?_, ?_⟩
  · rw [List.append_assoc, List.append_assoc, List.takeWhile_append_dropWhile,
      List.takeWhile_append_dropWhile, List.takeWhile_append_dropWhile]
  · intro c hc
    rcases List.mem_append.mp hc with h | h
    · exact h1 c (List.mem_takeWhile_imp h)
    · exact h2a c (List.mem_takeWhile_imp h)
  · intro c hc
    exact h3 c (List.mem_takeWhile_imp hc)
  · intro h
    exact h3a _ (head?_dropWhile_false _ _ _ h) rfl
  · intro hnil h
    have hd : ((l0.dropWhile p1).dropWhile p2).dropWhile p3 = (l0.dropWhile p1).dropWhile p2 := by
      have := List.takeWhile_append_dropWhile p3 ((l0.dropWhile p1).dropWhile p2)
      rw [hnil] at this
      simpa using this
    rw [hd] at h
    exact h2 _ (head?_dropWhile_false _ _ _ h) rfl

theorem backupFileName_toList (source : String) (now : Int) :
    (backupFileName source now).toList
      = (sourceWithLeadingDotsAndSlashesTrimed source).toList.map
          (fun c => if c = '/' then '_' else c)
        ++ '-' :: ((FormatInt now).toList ++ ['.', 't', 'a', 'r']) := by
  simp [backupFileName, ReplaceAll, String.toList]

theorem backupFileName_no_slash (source : String) (now : Int) :
    '/' ∉ (backupFileName source now).toList := by
  rw [backupFileName_toList]
  intro h
  rcases List.mem_append.mp h with h1 | h1
  · rw [List.mem_map] at h1
    obtain ⟨c, -, hc⟩ := h1
    by_cases hc1 : c = '/'
    · simp [hc1] at hc
    · simp [hc1] at hc
  · rcases List.mem_cons.mp h1 with h2 | h2
    · revert h2; decide
    · rcases List.mem_append.mp h2 with h3 | h3
      · exact FormatInt_no_slash now h3
      · revert h3; decide

theorem backupFileName_length (source : String) (now : Int) :
    (sourceWithLeadingDotsAndSlashesTrimed source).toList.length + 5
      ≤ (backupFileName source now).toList.length := by
  rw [backupFileName_toList]
  simp only [List.length_append, List.length_map, List.length_cons, List.length_nil]
  omega

/-- The backup path ends with the backup file name. -/
theorem backupPath_suffix (source backupDir : String) (now : Int) :
    ∃ x, (backupPath source backupDir now).toList = x ++ (backupFileName source now).toList :=
  Join_suffix backupDir (backupFileName source now) (backupFileName_no_slash source now)
    (by have := backupFileName_length source now; omega)

/-- The backup is never written over the temp file: one path ends in `.tar`, the other
in `.new`. -/
theorem backupPath_ne_dest (source backupDir : String) (now : Int) :
    backupPath source backupDir now ≠ source ++ ".new" := by
  intro h
  obtain ⟨x, hx⟩ := backupPath_suffix source backupDir now
  rw [h, backupFileName_toList] at hx
  have h1 : (source ++ ".new").toList = (source.toList ++ ['.', 'n', 'e']) ++ ['w'] := by
    simp [String.toList]
  have h2 : x ++ ((sourceWithLeadingDotsAndSlashesTrimed source).toList.map
          (fun c => if c = '/' then '_' else c)
        ++ '-' :: ((FormatInt now).toList ++ ['.', 't', 'a', 'r']))
      = (x ++ ((sourceWithLeadingDotsAndSlashesTrimed source).toList.map
          (fun c => if c = '/' then '_' else c)
        ++ '-' :: ((FormatInt now).toList ++ ['.', 't', 'a']))) ++ ['r'] := by
    simp
  rw [h1, h2] at hx
  have := congrArg List.getLast? hx
  simp only [List.getLast?_append, List.getLast?_singleton, Option.or_some] at this
  revert this
  decide

/-- The backup is never written over the source. -/
theorem backupPath_ne_source (source backupDir : String) (now : Int) :
    backupPath source backupDir now ≠ source := by
  intro h
  obtain ⟨x, hx⟩ := backupPath_suffix source backupDir now
  obtain ⟨D, Sl, hsrc, hD, hSl, hslash, hdot⟩ := trimmed_shape source
  have hlen := backupFileName_length source now
  have hns := backupFileName_no_slash source now
  have hfl := backupFileName_toList source now
  obtain ⟨S, hS⟩ : ∃ S, S = (sourceWithLeadingDotsAndSlashesTrimed source).toList := ⟨_, rfl⟩
  obtain ⟨f, hf⟩ : ∃ f, f = (backupFileName source now).toList := ⟨_, rfl⟩
  rw [← hS] at hsrc hslash hdot hlen hfl
  rw [← hf] at hx hlen hns hfl
  rw [h, hsrc] at hx
  rcases List.append_eq_append_iff.mp hx with ⟨a, ha1, ha2⟩ | ⟨c, hc1, hc2⟩
  · -- the file name would be a suffix of the trimmed source: too long
    have := congrArg List.length ha2
    simp only [List.length_append] at this
    omega
  · -- the file name is `c ++ S` with `c` a non-empty end of the trimmed-away part
    have hcne : c ≠ [] := by
      intro hc; rw [hc] at hc2; simp only [List.nil_append] at hc2
      rw [hc2] at hlen; omega
    cases hSl0 : Sl with
    | cons s Sl1 =>
      -- the trimmed-away part ends in a slash, so the file name holds one
      have hlast : (D ++ Sl).getLast? = some '/' := by
        rw [hSl0, List.getLast?_append]
        have hne : (s :: Sl1) ≠ [] := by simp
        rw [List.getLast?_eq_getLast _ hne]
        have := hSl ((s :: Sl1).getLast hne) (by rw [hSl0]; exact List.getLast_mem hne)
        simp [this]
      rw [hc1, List.getLast?_append, List.getLast?_eq_getLast _ hcne] at hlast
      simp only [Option.or, Option.some.injEq] at hlast
      apply hns
      rw [hc2]
      exact List.mem_append_left _ (hlast ▸ List.getLast_mem hcne)
    | nil =>
      -- the trimmed-away part is all dots, so the file name begins with a dot
      rw [hSl0, List.append_nil] at hc1
      obtain ⟨c0, c1, hc0⟩ : ∃ c0 c1, c = c0 :: c1 := by
        cases c with
        | nil => exact absurd rfl hcne
        | cons c0 c1 => exact ⟨c0, c1, rfl⟩
      have hc0dot : c0 = '.' := hD c0 (by rw [hc1, hc0]; simp)
      have hhead : f.head? = some '.' := by rw [hc2, hc0, hc0dot]; rfl
      rw [hfl] at hhead
      cases hS1 : S with
      | nil =>
        rw [hS1] at hhead
        simp only [List.map_nil, List.nil_append, List.head?_cons, Option.some.injEq] at hhead
        revert hhead; decide
      | cons s0 S1 =>
        rw [hS1] at hhead hslash
        have hs0 : s0 ≠ '/' := fun hEq => hslash (by rw [hEq]; rfl)
        have hs1 : s0 ≠ '.' := fun hEq => hdot hSl0 (by rw [hS1, hEq]; rfl)
        simp only [List.map_cons, hs0, if_false, List.cons_append, List.head?_cons,
          Option.some.injEq] at hhead
        exact hs1 hhead

/-! ## The remediation transaction -/

theorem dest_ne_source (source : String) : source ++ ".new" ≠ source := by
  intro h
  have := congrArg String.length h
  have h4 : ".new".length = 4 := rfl
  simp only [String.length_append, h4] at this
  omega

theorem FS.erase_same (fs : FS) (p : String) : fs.erase p p = none := by
  simp [FS.erase]

theorem FS.erase_other (fs : FS) (p q : String) (h : q ≠ p) : fs.erase p q = fs q := by
  simp [FS.erase, h]

theorem remove_other (fault : Option String) (fs : FS) (p q : String) (h : q ≠ p) :
    remove fault fs p q = fs q := by
  cases fault <;> simp [remove, FS.erase, h]

theorem remove_same (fs : FS) (p : String) : remove none fs p p = none := by
  simp [remove, FS.erase]

theorem remove_gone (fault : Option String) (fs : FS) (p : String) (h : fs p = none) :
    remove fault fs p p = none := by
  cases fault <;> simp [remove, FS.erase, h]

theorem writeFile_other (o w : Option String) (proc : Proc) (fs : FS) (p q : String)
    (d : Data) (perm : Nat) (h : q ≠ p) : (writeFile o w proc fs p d perm).2 q = fs q := by
  unfold writeFile
  cases o <;> cases w <;> simp [FS.set, h]

theorem backupFile_other (flt : SwapFaults) (proc : Proc) (fs : FS) (src dest q : String)
    (h : q ≠ dest) : (backupFile flt proc fs src dest).2 q = fs q := by
  unfold backupFile
  split
  · rfl
  · split
    · rfl
    · split
      · rfl
      · rfl
      · split
        · rfl
        · split
          · rfl
          · exact writeFile_other _ _ _ _ _ _ _ _ h

/-- A successful `backupFile` leaves at `dest` the tar record of the source file: its
path, its mode and its content. -/
theorem backupFile_ok (flt : SwapFaults) (proc : Proc) (fs fs1 : FS) (src dest : String)
    (f0 : File) (hsrc : fs src = some f0)
    (h : backupFile flt proc fs src dest = (none, fs1)) :
    ∃ b, fs1 dest = some b ∧ b.data = .tar src f0.mode f0.data := by
  unfold backupFile stat at h
  cases h1 : flt.backupStat <;> simp [h1, hsrc] at h
  cases h2 : flt.tarHeader <;> simp [h2] at h
  cases h3 : flt.readFile <;> simp [h3] at h
  cases h4 : flt.tarWrite <;> simp [h4] at h
  cases h5 : flt.tarClose <;> simp [h5] at h
  unfold writeFile at h
  cases h6 : flt.writeFileOpen <;> simp [h6] at h
  cases h7 : flt.writeFileWrite <;> simp [h7] at h
  subst h
  simp [FS.set]

theorem discardAndReturn_out (flt : PatchFaults) (written : List (String × Data))
    (e : String) :
    (discardAndReturn flt written e).1 = .panicked ∨
      (discardAndReturn flt written e).1 = .returned (some e) := by
  unfold discardAndReturn
  split
  · exact Or.inl rfl
  · exact Or.inr rfl

theorem discardZip_out (flt : PatchFaults) (written : List (String × Data)) :
    (discardZip flt written).1 = .panicked ∨ ∃ r, (discardZip flt written).1 = .returned r := by
  unfold discardZip
  split
  · exact Or.inl rfl
  · split
    · exact Or.inr ⟨_, rfl⟩
    · split
      · exact Or.inr ⟨_, rfl⟩
      · exact Or.inr ⟨_, rfl⟩

/-- The loop of `patch` either runs to its end, having written exactly the members the
classifier does not flag, or is left with an error or by a panic. -/
theorem patchLoop_cases (classify : Classifier) (examineV1 : Bool) (flt : PatchFaults)
    (members : List (String × Data)) :
    ∀ (i : Nat) (written : List (String × Data)),
      patchLoop classify examineV1 flt members i written
        = (none, .unfinished (written ++ retained classify examineV1 members)) ∨
      ∃ out d, patchLoop classify examineV1 flt members i written = (some out, d) ∧
        (out = .panicked ∨ ∃ e, out = .returned (some e)) := by
  induction members with
  | nil => intro i written; left; simp [patchLoop, retained]
  | cons m rest ih =>
    intro i written
    obtain ⟨name, content⟩ := m
    have hbranch : ∀ (site : PatchLog) (e : String),
        ∃ out d,
          (if log (flt.log site) = true then (some Outcome.panicked, Data.unfinished written)
            else (some (discardAndReturn flt written e).1, (discardAndReturn flt written e).2))
            = (some out, d) ∧ (out = .panicked ∨ ∃ e, out = .returned (some e)) := by
      intro site e
      split
      · exact ⟨_, _, rfl, Or.inl rfl⟩
      · rcases discardAndReturn_out flt written e with h | h
        · exact ⟨_, _, rfl, Or.inl h⟩
        · exact ⟨_, _, rfl, Or.inr ⟨e, h⟩⟩
    rw [patchLoop]
    cases ho : flt.memberOpen i with
    | some e =>
      right
      simp only []
      split
      · exact ⟨_, _, rfl, Or.inl rfl⟩
      · split
        · exact ⟨_, _, rfl, Or.inr ⟨_, rfl⟩⟩
        · exact ⟨_, _, rfl, Or.inl rfl⟩
    | none =>
      simp only []
      cases hr : flt.memberRead i with
      | some e => right; exact hbranch _ e
      | none =>
        simp only []
        by_cases hc : classify content name examineV1 = ""
        · simp only [hc, ne_eq, not_true_eq_false, if_false]
          cases hzc : flt.zwCreate i with
          | some e => right; exact hbranch _ e
          | none =>
            simp only []
            cases hzw : flt.zwWrite i with
            | some e => right; exact hbranch _ e
            | none =>
              simp only []
              rcases ih (i + 1) (written ++ [(name, content)]) with h | h
              · left; rw [h]; simp [retained, hc]
              · right; exact h
        · simp only [hc, ne_eq, not_false_eq_true, if_true]
          rcases ih (i + 1) written with h | h
          · left; rw [h]; simp [retained, hc]
          · right; exact h

/-- When the loop of `patch` runs to its end, it has written exactly the members the
classifier does not flag. -/
theorem patchLoop_complete (classify : Classifier) (examineV1 : Bool) (flt : PatchFaults)
    (members : List (String × Data)) (i : Nat) (written : List (String × Data)) (d : Data)
    (h : patchLoop classify examineV1 flt members i written = (none, d)) :
    d = .unfinished (written ++ retained classify examineV1 members) := by
  rcases patchLoop_cases classify examineV1 flt members i written with h1 | ⟨out, d1, h1, -⟩
  · rw [h1] at h; exact (Prod.mk.inj h).2.symm
  · rw [h1] at h; exact absurd (Prod.mk.inj h).1 (by simp)

/-- When the loop of `patch` is left early, it is left with an error or by a panic. -/
theorem patchLoop_abort (classify : Classifier) (examineV1 : Bool) (flt : PatchFaults)
    (members : List (String × Data)) (i : Nat) (written : List (String × Data))
    (out : Outcome) (d : Data)
    (h : patchLoop classify examineV1 flt members i written = (some out, d)) :
    out = .panicked ∨ ∃ e, out = .returned (some e) := by
  rcases patchLoop_cases classify examineV1 flt members i written with h1 | ⟨o, d1, h1, h2⟩
  · rw [h1] at h; exact absurd (Prod.mk.inj h).1 (by simp)
  · rw [h1] at h
    have := (Prod.mk.inj h).1
    simp only [Option.some.injEq] at this
    rw [← this]; exact h2

theorem patch_ok (classify : Classifier) (flt : PatchFaults) (proc : Proc) (fs fs2 : FS)
    (source dest : String) (examineV1 : Bool)
    (h : patch classify flt proc fs source dest examineV1 = (.returned none, fs2)) :
    ∃ f members g, fs source = some f ∧ f.data = .zip members ∧ fs2 dest = some g ∧
      g.data = rewritten classify flt examineV1 members := by
  unfold patch at h
  cases hz : openZip flt.openReader (fs source) source with
  | error e =>
    rw [hz] at h
    simp only [] at h
    split at h <;> simp at h
  | ok members =>
    have hsrc : ∃ f, fs source = some f ∧ f.data = .zip members := by
      unfold openZip at hz
      cases ho : flt.openReader <;> simp [ho] at hz
      cases hf : fs source with
      | none => simp [hf] at hz
      | some f =>
        cases f with
        | mk d u g m =>
          cases d <;> simp [hf] at hz
          subst hz
          exact ⟨_, rfl, rfl⟩
    obtain ⟨f, hf1, hf2⟩ := hsrc
    rw [hz] at h
    simp only [] at h
    cases hc : flt.create with
    | some e =>
      rw [hc] at h
      simp only [] at h
      split at h <;> simp at h
    | none =>
      rw [hc] at h
      simp only [] at h
      obtain ⟨g0, hg0⟩ := createFile_same proc fs dest
      cases hl : patchLoop classify examineV1 flt members 0 [] with
      | mk o d =>
        rw [hl] at h
        cases o with
        | some out =>
          simp only [Prod.mk.injEq] at h
          rcases patchLoop_abort classify examineV1 flt members 0 [] out d hl with hp | ⟨e, he⟩
          · rw [hp] at h; exact absurd h.1 (by simp)
          · rw [he] at h; exact absurd h.1 (by simp)
        | none =>
          have hd := patchLoop_complete classify examineV1 flt members 0 [] d hl
          simp only [List.nil_append] at hd
          subst hd
          simp only [] at h
          refine ⟨f, members, { g0 with data := rewritten classify flt examineV1 members },
            hf1, hf2, ?_, rfl⟩
          cases hzw : flt.zwClose with
          | none =>
            rw [hzw] at h
            simp only [Prod.mk.injEq] at h
            rw [← h.2, setData_same _ _ _ _ hg0]
            simp [rewritten, hzw, finalised]
          | some e =>
            rw [hzw] at h
            simp only [] at h
            split at h
            · simp at h
            · simp only [Prod.mk.injEq] at h
              rw [← h.2, setData_same _ _ _ _ hg0]
              simp [rewritten, hzw]

theorem log_ok (fault : Option String) (h : fault = none) : log fault = false := by
  rw [h]; rfl

theorem discardAndReturn_ok (flt : PatchFaults) (hlog : ∀ s, flt.log s = none)
    (written : List (String × Data)) (e : String) :
    (discardAndReturn flt written e).1 = .returned (some e) := by
  unfold discardAndReturn discardZip
  simp only [log_ok _ (hlog _), Bool.false_eq_true, if_false]
  cases flt.discardZwClose <;> cases flt.discardOfClose <;> rfl

/-- When no `member.Open()` fails and every log line is written, the loop of `patch`
either returns an error or runs to its end with every read, and every create and write
for an unflagged member, having succeeded. -/
theorem patchLoop_total (classify : Classifier) (examineV1 : Bool) (flt : PatchFaults)
    (hlog : ∀ s, flt.log s = none)
    (hmo : ∀ i, flt.memberOpen i = none) (members : List (String × Data)) :
    ∀ (i : Nat) (written : List (String × Data)),
      (∃ e d, patchLoop classify examineV1 flt members i written
        = (some (.returned (some e)), d)) ∨
      ((∃ d, patchLoop classify examineV1 flt members i written = (none, d)) ∧
        ∀ j m, members[j]? = some m →
          flt.memberRead (i + j) = none ∧
          (classify m.2 m.1 examineV1 = "" →
            flt.zwCreate (i + j) = none ∧ flt.zwWrite (i + j) = none)) := by
  induction members with
  | nil =>
    intro i written
    right
    exact ⟨⟨_, rfl⟩, by intro j m h; simp at h⟩
  | cons m0 rest ih =>
    intro i written
    obtain ⟨name, content⟩ := m0
    have step : ∀ written1,
        flt.memberRead i = none →
        (classify content name examineV1 = "" → flt.zwCreate i = none ∧ flt.zwWrite i = none) →
        patchLoop classify examineV1 flt ((name, content) :: rest) i written
          = patchLoop classify examineV1 flt rest (i + 1) written1 →
        (∃ e d, patchLoop classify examineV1 flt ((name, content) :: rest) i written
          = (some (.returned (some e)), d)) ∨
        ((∃ d, patchLoop classify examineV1 flt ((name, content) :: rest) i written = (none, d)) ∧
          ∀ j m, ((name, content) :: rest)[j]? = some m →
            flt.memberRead (i + j) = none ∧
            (classify m.2 m.1 examineV1 = "" →
              flt.zwCreate (i + j) = none ∧ flt.zwWrite (i + j) = none)) := by
      intro written1 hr hcw heq
      rw [heq]
      rcases ih (i + 1) written1 with h | ⟨h1, h2⟩
      · exact Or.inl h
      · refine Or.inr ⟨h1, ?_⟩
        intro j m hj
        cases j with
        | zero =>
          simp only [List.getElem?_cons_zero, Option.some.injEq] at hj
          rw [← hj]
          exact ⟨hr, hcw⟩
        | succ j =>
          simp only [List.getElem?_cons_succ] at hj
          have := h2 j m hj
          rw [show i + (j + 1) = i + 1 + j by omega]
          exact this
    have hret : ∀ e, discardAndReturn flt written e
        = (.returned (some e), (discardAndReturn flt written e).2) := by
      intro e
      exact Prod.ext (discardAndReturn_ok flt hlog written e) rfl
    cases hr : flt.memberRead i with
    | some e =>
      left
      refine ⟨e, (discardAndReturn flt written e).2, ?_⟩
      rw [patchLoop]
      simp only [hmo, hr, log_ok _ (hlog _), Bool.false_eq_true, if_false,
        discardAndReturn_ok flt hlog written e]
    | none =>
      by_cases hc : classify content name examineV1 = ""
      · cases hzc : flt.zwCreate i with
        | some e =>
          left
          refine ⟨e, (discardAndReturn flt written e).2, ?_⟩
          rw [patchLoop]
          simp only [hmo, hr, hc, hzc, log_ok _ (hlog _), Bool.false_eq_true, if_false,
            discardAndReturn_ok flt hlog written e, ne_eq, not_true_eq_false]
        | none =>
          cases hzw : flt.zwWrite i with
          | some e =>
            left
            refine ⟨e, (discardAndReturn flt written e).2, ?_⟩
            rw [patchLoop]
            simp only [hmo, hr, hc, hzc, hzw, log_ok _ (hlog _), Bool.false_eq_true, if_false,
              discardAndReturn_ok flt hlog written e, ne_eq, not_true_eq_false]
          | none =>
            exact step (written ++ [(name, content)]) hr (fun _ => ⟨hzc, hzw⟩)
              (by rw [patchLoop]; simp [hmo, hr, hc, hzc, hzw])
      · exact step written hr (fun h => absurd h hc)
          (by rw [patchLoop]; simp [hmo, hr, hc])

/-- When the source opens as a ZIP, no `member.Open()` fails and every log line is
written, `patch` returns, and it returns an error as soon as one of its other steps
fails. -/
theorem patch_error_of_step_failure (classify : Classifier) (flt : PatchFaults) (proc : Proc)
    (fs : FS) (source dest : String) (examineV1 : Bool) (members : List (String × Data))
    (hopen : openZip flt.openReader (fs source) source = .ok members)
    (hlog : ∀ s, flt.log s = none)
    (hmo : ∀ i, flt.memberOpen i = none)
    (hfail : flt.StepFails classify examineV1 members) :
    ∃ e, (patch classify flt proc fs source dest examineV1).1 = .returned (some e) := by
  unfold patch
  simp only [hopen]
  cases hc : flt.create with
  | some e =>
    simp only [log_ok _ (hlog _), Bool.false_eq_true, if_false]
    exact ⟨e, rfl⟩
  | none =>
    simp only []
    rcases patchLoop_total classify examineV1 flt hlog hmo members 0 [] with
      ⟨e, d, h⟩ | ⟨⟨d, h1⟩, h2⟩
    · rw [h]; exact ⟨e, rfl⟩
    · rw [h1]
      simp only []
      have hout : ∀ a b : FS,
          (match flt.zwClose with
            | none => (Outcome.returned flt.ofClose, a)
            | some _ =>
              if log (flt.log PatchLog.finalize) = true then (Outcome.panicked, b)
              else (Outcome.returned flt.ofClose, b)).1 = Outcome.returned flt.ofClose := by
        intro a b
        cases flt.zwClose with
        | none => rfl
        | some e => simp only [log_ok _ (hlog _), Bool.false_eq_true, if_false]
      rw [hout]
      rcases hfail with hf | ⟨i, m, hm, hf⟩ | ⟨i, m, hm, hcl, hf⟩ | hf
      · exact absurd hc hf
      · have := (h2 i m hm).1
        rw [Nat.zero_add] at this
        exact absurd this hf
      · have := (h2 i m hm).2 hcl
        rw [Nat.zero_add] at this
        rcases hf with hf | hf
        · exact absurd this.1 hf
        · exact absurd this.2 hf
      · cases ho : flt.ofClose with
        | none => exact absurd ho hf
        | some e => exact ⟨e, rfl⟩

theorem stat_ok (fault : Option String) (fs : FS) (path : String) (f : File)
    (h : stat fault fs path = .ok f) : fs path = some f := by
  unfold stat at h
  cases fault <;> simp at h
  cases hf : fs path <;> simp [hf] at h
  rw [h]

/-- The body of `PatchAndSwap` returns nil only with `success` set, and then the
transaction has done all of its work. -/
theorem patchAndSwapBody_ok (classify : Classifier) (flt : SwapFaults) (proc : Proc)
    (now : Int) (fs fsF : FS) (source backupDir : String) (success : Bool)
    (h : patchAndSwapBody classify flt proc now fs source backupDir
      = (.returned none, fsF, success)) :
    success = true ∧
    ∃ f0 members b,
      fs source = some f0 ∧ f0.data = .zip members ∧
      fsF source = some { data := rewritten classify flt.patch true members,
                          uid := f0.uid, gid := f0.gid, mode := f0.mode } ∧
      fsF (backupPath source backupDir now) = some b ∧
      b.data = .tar source f0.mode f0.data ∧
      fsF (source ++ ".new") = none := by
  have hds := dest_ne_source source
  have hsrc := backupPath_ne_source source backupDir now
  have hdest := backupPath_ne_dest source backupDir now
  unfold patchAndSwapBody at h
  simp only [] at h
  cases hst : stat flt.stat fs source with
  | error e => rw [hst] at h; simp at h
  | ok f0 =>
    have hf0 := stat_ok _ _ _ _ hst
    rw [hst] at h
    simp only [] at h
    split at h
    · simp at h
    · cases hmk : flt.mkdirAll with
      | some e => rw [hmk] at h; simp at h
      | none =>
        rw [hmk] at h
        simp only [] at h
        cases hbk : backupFile flt proc fs source (backupPath source backupDir now) with
        | mk r fs1 =>
          rw [hbk] at h
          cases r with
          | some e => simp at h
          | none =>
            simp only [] at h
            obtain ⟨b, hb1, hb2⟩ := backupFile_ok flt proc fs fs1 source _ f0 hf0 hbk
            have hfs1 : ∀ q, q ≠ backupPath source backupDir now → fs1 q = fs q := by
              intro q hq
              have := backupFile_other flt proc fs source (backupPath source backupDir now) q hq
              rw [hbk] at this; exact this
            split at h
            · simp at h
            · cases hp : patch classify flt.patch proc fs1 source (source ++ ".new") true with
              | mk out fs2 =>
                rw [hp] at h
                cases out with
                | exited c => simp at h
                | panicked => simp at h
                | returned err =>
                  cases err with
                  | some e => simp at h
                  | none =>
                    simp only [] at h
                    obtain ⟨f, members, g, hf1, hf2, hg1, hg2⟩ :=
                      patch_ok classify flt.patch proc fs1 fs2 source _ true hp
                    have hfs2 : ∀ q, q ≠ source ++ ".new" → fs2 q = fs1 q := by
                      intro q hq
                      have := patch_source_untouched classify flt.patch proc fs1 source
                        (source ++ ".new") true q hq
                      rw [hp] at this; exact this
                    rw [hfs1 source (Ne.symm hsrc), hf0] at hf1
                    cases hf1
                    unfold chown chmod rename at h
                    cases hco : flt.chown with
                    | some e => rw [hco] at h; simp at h
                    | none =>
                      rw [hco] at h
                      simp only [hg1] at h
                      cases hcm : flt.chmod with
                      | some e => rw [hcm] at h; simp at h
                      | none =>
                        rw [hcm] at h
                        simp only [FS.set_same] at h
                        split at h
                        · simp at h
                        · cases hrn : flt.rename with
                          | some e => rw [hrn] at h; simp at h
                          | none =>
                            rw [hrn] at h
                            simp only [FS.set_same] at h
                            split at h
                            · simp at h
                            · simp only [Prod.mk.injEq, true_and] at h
                              obtain ⟨hF, hS⟩ := h
                              subst hF
                              refine ⟨hS.symm, f0, members, b, hf0, hf2, ?_, ?_, hb2, ?_⟩
                              · simp [FS.set, hg2]
                              · simp [FS.set, FS.erase, hsrc, hdest, hfs2 _ hdest, hb1]
                              · simp [FS.set, FS.erase, hds]

/-- C7. Success postcondition of the transaction: whenever `PatchAndSwap` returns nil,
the source was a ZIP archive, the file at the source path is the archive `patch` wrote
(the members the classifier does not flag) with the owner uid/gid and the mode the source
had when it was stat'ed, the backup written during the transaction still exists and holds
the original path, mode and content, and the temp file is gone. -/
theorem patchAndSwap_success (classify : Classifier) (flt : SwapFaults) (proc : Proc)
    (now : Int) (fs : FS) (source backupDir : String)
    (h : (PatchAndSwap classify flt proc now fs source backupDir).1 = .returned none) :
    ∃ f0 members b,
      fs source = some f0 ∧ f0.data = .zip members ∧
      (PatchAndSwap classify flt proc now fs source backupDir).2 source
        = some { data := rewritten classify flt.patch true members,
                 uid := f0.uid, gid := f0.gid, mode := f0.mode } ∧
      (PatchAndSwap classify flt proc now fs source backupDir).2
        (backupPath source backupDir now) = some b ∧
      b.data = .tar source f0.mode f0.data ∧
      (PatchAndSwap classify flt proc now fs source backupDir).2 (source ++ ".new") = none := by
  cases hb : patchAndSwapBody classify flt proc now fs source backupDir with
  | mk out rest =>
    obtain ⟨fsF, success⟩ := rest
    have hPS : PatchAndSwap classify flt proc now fs source backupDir
        = (match (out, fsF, success) with
          | (.exited c, fs1, _) => (.exited c, fs1)
          | (out, fs1, success) =>
            if success then (out, fs1)
            else if log (flt.log .removingBackup) then (.panicked, fs1)
            else (out, remove flt.removeDeferred fs1 (backupPath source backupDir now))) := by
      unfold PatchAndSwap; rw [hb]
    have hout : out = .returned none := by
      rw [hPS] at h
      cases out with
      | exited c => simp at h
      | panicked =>
        simp only [] at h
        split at h
        · simp at h
        · split at h <;> simp at h
      | returned r =>
        simp only [] at h
        split at h
        · exact congrArg _ (by simpa using h)
        · split at h
          · simp at h
          · exact congrArg _ (by simpa using h)
    subst hout
    obtain ⟨hs, hrest⟩ := patchAndSwapBody_ok classify flt proc now fs fsF source backupDir
      success hb
    subst hs
    have hfs : (PatchAndSwap classify flt proc now fs source backupDir).2 = fsF := by
      rw [hPS]; rfl
    rw [hfs]
    exact hrest

/-- C7, witness: the transaction on `app.jar` (A, B, C with B flagged) with no failing
step returns nil. -/
theorem patchAndSwap_success_witness :
    (PatchAndSwap flagsB noSwapFaults root 1700000000 appJar "app.jar" "bk").1 = .returned none ∧
    ∃ f0 members b,
      appJar "app.jar" = some f0 ∧ f0.data = .zip members ∧
      (PatchAndSwap flagsB noSwapFaults root 1700000000 appJar "app.jar" "bk").2 "app.jar"
        = some { data := rewritten flagsB noSwapFaults.patch true members,
                 uid := f0.uid, gid := f0.gid, mode := f0.mode } ∧
      (PatchAndSwap flagsB noSwapFaults root 1700000000 appJar "app.jar" "bk").2
        (backupPath "app.jar" "bk" 1700000000) = some b ∧
      b.data = .tar "app.jar" f0.mode f0.data ∧
      (PatchAndSwap flagsB noSwapFaults root 1700000000 appJar "app.jar" "bk").2
        ("app.jar" ++ ".new") = none :=
  ⟨rfl, patchAndSwap_success flagsB noSwapFaults root 1700000000 appJar "app.jar" "bk" rfl⟩

/-- C3, counterexample. The source `app.jar` is not a ZIP archive: the backup is written,
then `patch` fails to open the source and ends the process with exit code 1.
`PatchAndSwap` does not return, and the backup file is still there. Also, when reading
a member fails and the removals of the backup fail too, `PatchAndSwap` returns its
error with the backup still there; and when reading a member fails with stderr no
longer writable, `log` panics, `PatchAndSwap` does not return, and the backup is still
there. -/
theorem patchAndSwap_exit_keeps_backup :
    (PatchAndSwap flagsB noSwapFaults root 1700000000 notZip "app.jar" "bk").1 = .exited 1 ∧
    (∃ b, (PatchAndSwap flagsB noSwapFaults root 1700000000 notZip "app.jar" "bk").2
      (backupPath "app.jar" "bk" 1700000000) = some b) ∧
    (PatchAndSwap flagsB readAndRemoveFail root 1700000000 appJar "app.jar" "bk").1
      = .returned (some ("failed patching source: " ++ "unexpected EOF")) ∧
    (∃ b, (PatchAndSwap flagsB readAndRemoveFail root 1700000000 appJar "app.jar" "bk").2
      (backupPath "app.jar" "bk" 1700000000) = some b) ∧
    (PatchAndSwap flagsB readFailsNoStderr root 1700000000 appJar "app.jar" "bk").1
      = .panicked ∧
    (∃ b, (PatchAndSwap flagsB readFailsNoStderr root 1700000000 appJar "app.jar" "bk").2
      (backupPath "app.jar" "bk" 1700000000) = some b) :=
  ⟨rfl, ⟨_, rfl⟩, rfl, ⟨_, rfl⟩, rfl, ⟨_, rfl⟩⟩

/-- When the loop of `patch` runs to its end, every read, and every create and write for
an unflagged member, has succeeded. -/
theorem patchLoop_steps_ok (classify : Classifier) (examineV1 : Bool) (flt : PatchFaults)
    (members : List (String × Data)) :
    ∀ (i : Nat) (written : List (String × Data)) (d : Data),
      patchLoop classify examineV1 flt members i written = (none, d) →
      ∀ j m, members[j]? = some m →
        flt.memberRead (i + j) = none ∧
        (classify m.2 m.1 examineV1 = "" →
          flt.zwCreate (i + j) = none ∧ flt.zwWrite (i + j) = none) := by
  induction members with
  | nil => intro i written d _ j m h; simp at h
  | cons m0 rest ih =>
    intro i written d h
    obtain ⟨name, content⟩ := m0
    have step : ∀ written1,
        flt.memberRead i = none →
        (classify content name examineV1 = "" → flt.zwCreate i = none ∧ flt.zwWrite i = none) →
        patchLoop classify examineV1 flt rest (i + 1) written1 = (none, d) →
        ∀ j m, ((name, content) :: rest)[j]? = some m →
          flt.memberRead (i + j) = none ∧
          (classify m.2 m.1 examineV1 = "" →
            flt.zwCreate (i + j) = none ∧ flt.zwWrite (i + j) = none) := by
      intro written1 hr hcw heq j m hj
      cases j with
      | zero =>
        simp only [List.getElem?_cons_zero, Option.some.injEq] at hj
        rw [← hj]
        exact ⟨hr, hcw⟩
      | succ j =>
        simp only [List.getElem?_cons_succ] at hj
        have := ih (i + 1) written1 d heq j m hj
        rw [show i + (j + 1) = i + 1 + j by omega]
        exact this
    have hbranch : ∀ (site : PatchLog) (e : String),
        (if log (flt.log site) = true then (some Outcome.panicked, Data.unfinished written)
          else (some (discardAndReturn flt written e).1, (discardAndReturn flt written e).2))
          ≠ (none, d) := by
      intro site e hx
      split at hx <;> exact absurd (Prod.mk.inj hx).1 (by simp)
    rw [patchLoop] at h
    cases ho : flt.memberOpen i with
    | some e =>
      exfalso
      rw [ho] at h
      simp only [] at h
      split at h
      · exact absurd (Prod.mk.inj h).1 (by simp)
      · split at h <;> exact absurd (Prod.mk.inj h).1 (by simp)
    | none =>
      rw [ho] at h
      simp only [] at h
      cases hr : flt.memberRead i with
      | some e =>
        rw [hr] at h
        exact absurd h (hbranch _ e)
      | none =>
        rw [hr] at h
        simp only [] at h
        by_cases hc : classify content name examineV1 = ""
        · simp only [hc, ne_eq, not_true_eq_false, if_false] at h
          cases hzc : flt.zwCreate i with
          | some e =>
            rw [hzc] at h
            exact absurd h (hbranch _ e)
          | none =>
            rw [hzc] at h
            simp only [] at h
            cases hzw : flt.zwWrite i with
            | some e =>
              rw [hzw] at h
              exact absurd h (hbranch _ e)
            | none =>
              rw [hzw] at h
              exact step _ hr (fun _ => ⟨hzc, hzw⟩) h
        · simp only [hc, ne_eq, not_false_eq_true, if_true] at h
          exact step _ hr (fun hx => absurd hx hc) h

/-- When the source opens as a ZIP and one of the steps of `patch` fails, `patch` does
not return nil and does not end the process: it returns an error or panics. -/
theorem patch_fails_of_step_failure (classify : Classifier) (flt : PatchFaults) (proc : Proc)
    (fs : FS) (source dest : String) (examineV1 : Bool) (members : List (String × Data))
    (hopen : openZip flt.openReader (fs source) source = .ok members)
    (hfail : flt.StepFails classify examineV1 members) :
    (patch classify flt proc fs source dest examineV1).1 = .panicked ∨
      ∃ e, (patch classify flt proc fs source dest examineV1).1 = .returned (some e) := by
  unfold patch
  simp only [hopen]
  cases hc : flt.create with
  | some e =>
    simp only []
    split
    · exact Or.inl rfl
    · exact Or.inr ⟨e, rfl⟩
  | none =>
    simp only []
    cases hl : patchLoop classify examineV1 flt members 0 [] with
    | mk o d =>
      cases o with
      | some out =>
        simp only []
        rcases patchLoop_abort classify examineV1 flt members 0 [] out d hl with h | ⟨e, h⟩
        · exact Or.inl h
        · exact Or.inr ⟨e, h⟩
      | none =>
        have h2 := patchLoop_steps_ok classify examineV1 flt members 0 [] d hl
        simp only []
        rcases hfail with hf | ⟨i, m, hm, hf⟩ | ⟨i, m, hm, hcl, hf⟩ | hf
        · exact absurd hc hf
        · have := (h2 i m hm).1
          rw [Nat.zero_add] at this
          exact absurd this hf
        · have := (h2 i m hm).2 hcl
          rw [Nat.zero_add] at this
          rcases hf with hf | hf
          · exact absurd this.1 hf
          · exact absurd this.2 hf
        · cases ho : flt.ofClose with
          | none => exact absurd ho hf
          | some e =>
            cases flt.zwClose with
            | none => exact Or.inr ⟨e, rfl⟩
            | some x =>
              simp only []
              split
              · exact Or.inl rfl
              · exact Or.inr ⟨e, rfl⟩

/-- When `patch` panics or returns an error after the backup was written, `PatchAndSwap`
panics or hands the error on, and the source is as before. -/
theorem patchAndSwap_source_kept (classify : Classifier) (flt : SwapFaults) (proc : Proc)
    (now : Int) (fs fs1 : FS) (source backupDir : String) (f0 : File)
    (hstat : stat flt.stat fs source = .ok f0) (hlogB : flt.log .backingUp = none)
    (hmk : flt.mkdirAll = none)
    (hbk : backupFile flt proc fs source (backupPath source backupDir now) = (none, fs1))
    (hlogP : flt.log .patching = none)
    (hpatch : (patch classify flt.patch proc fs1 source (source ++ ".new") true).1 = .panicked ∨
      ∃ e, (patch classify flt.patch proc fs1 source (source ++ ".new") true).1
        = .returned (some e)) :
    (PatchAndSwap classify flt proc now fs source backupDir).2 source = fs source ∧
    ((PatchAndSwap classify flt proc now fs source backupDir).1 = .panicked ∨
      ∃ e, (PatchAndSwap classify flt proc now fs source backupDir).1
        = .returned (some ("failed patching source: " ++ e))) := by
  have hds := dest_ne_source source
  have hsrc := backupPath_ne_source source backupDir now
  cases hp : patch classify flt.patch proc fs1 source (source ++ ".new") true with
  | mk out fs2 =>
    rw [hp] at hpatch
    simp only at hpatch
    have hfs2 : fs2 source = fs1 source := by
      have := patch_source_untouched classify flt.patch proc fs1 source
        (source ++ ".new") true source (Ne.symm hds)
      rw [hp] at this; exact this
    have hfs1 : fs1 source = fs source := by
      have := backupFile_other flt proc fs source (backupPath source backupDir now) source
        (Ne.symm hsrc)
      rw [hbk] at this; exact this
    unfold PatchAndSwap patchAndSwapBody
    simp only [hstat, hmk, hbk, hp, log_ok _ hlogB, log_ok _ hlogP, Bool.false_eq_true, if_false]
    have hlogn : log (none : Option String) = false := rfl
    have hlogs : ∀ x : String, log (some x) = true := fun _ => rfl
    rcases hpatch with h | ⟨e, h⟩
    · subst h
      cases hl : flt.log .removingBackup with
      | some x =>
        simp only [hlogs, if_true, Bool.false_eq_true, if_false]
        exact ⟨hfs2.trans hfs1, Or.inl trivial⟩
      | none =>
        simp only [hlogn, Bool.false_eq_true, if_false]
        refine ⟨?_, Or.inl trivial⟩
        rw [remove_other _ _ _ _ (Ne.symm hsrc), hfs2, hfs1]
    · subst h
      cases hl : flt.log .removingBackup with
      | some x =>
        simp only [hlogs, if_true, Bool.false_eq_true, if_false]
        refine ⟨?_, Or.inl trivial⟩
        rw [remove_other _ _ _ _ (Ne.symm hsrc), hfs2, hfs1]
      | none =>
        simp only [hlogn, Bool.false_eq_true, if_false]
        refine ⟨?_, Or.inr ⟨e, rfl⟩⟩
        rw [remove_other _ _ _ _ (Ne.symm hsrc), remove_other _ _ _ _ (Ne.symm hsrc), hfs2, hfs1]

/-- Rollback on an error return of `patch`: when the log lines are written,
`PatchAndSwap` hands the error on, and the backup is gone as soon as one of the two
removals of it succeeds and is still there when both fail. -/
theorem patchAndSwap_rollback_of_error (classify : Classifier) (flt : SwapFaults) (proc : Proc)
    (now : Int) (fs fs1 : FS) (source backupDir : String) (f0 : File) (e : String)
    (hstat : stat flt.stat fs source = .ok f0) (hlogB : flt.log .backingUp = none)
    (hmk : flt.mkdirAll = none)
    (hbk : backupFile flt proc fs source (backupPath source backupDir now) = (none, fs1))
    (hlogP : flt.log .patching = none)
    (hpatch : (patch classify flt.patch proc fs1 source (source ++ ".new") true).1
      = .returned (some e))
    (hlogR : flt.log .removingBackup = none) :
    (PatchAndSwap classify flt proc now fs source backupDir).1
      = .returned (some ("failed patching source: " ++ e)) ∧
    (flt.removeAfterPatch = none ∨ flt.removeDeferred = none →
      (PatchAndSwap classify flt proc now fs source backupDir).2
        (backupPath source backupDir now) = none) ∧
    (flt.removeAfterPatch ≠ none → flt.removeDeferred ≠ none →
      ∃ b, (PatchAndSwap classify flt proc now fs source backupDir).2
        (backupPath source backupDir now) = some b ∧ b.data = .tar source f0.mode f0.data) := by
  have hdest := backupPath_ne_dest source backupDir now
  have hf0 := stat_ok _ _ _ _ hstat
  obtain ⟨b, hb1, hb2⟩ := backupFile_ok flt proc fs fs1 source _ f0 hf0 hbk
  cases hp : patch classify flt.patch proc fs1 source (source ++ ".new") true with
  | mk out fs2 =>
    rw [hp] at hpatch
    simp only at hpatch
    subst hpatch
    have hfs2 : fs2 (backupPath source backupDir now) = some b := by
      have := patch_source_untouched classify flt.patch proc fs1 source
        (source ++ ".new") true (backupPath source backupDir now) hdest
      rw [hp] at this; exact this.trans hb1
    unfold PatchAndSwap patchAndSwapBody
    simp only [hstat, hmk, hbk, hp, log_ok _ hlogB, log_ok _ hlogP, log_ok _ hlogR,
      Bool.false_eq_true, if_false]
    refine ⟨trivial, ?_, ?_⟩
    · intro hrm
      rcases hrm with h | h
      · rw [h]
        exact remove_gone _ _ _ (remove_same _ _)
      · rw [h]
        exact remove_same _ _
    · intro h1 h2
      cases hr1 : flt.removeAfterPatch with
      | none => exact absurd hr1 h1
      | some x =>
        cases hr2 : flt.removeDeferred with
        | none => exact absurd hr2 h2
        | some y => exact ⟨b, by simp [remove, hfs2], hb2⟩

/-- C3, amended. Rollback on rewrite failure: if the backup of a ZIP archive was written
and, the source opening as a ZIP, a step of `patch` then fails (creating dest, reading a
member, creating or writing an output entry, closing dest), the file at the source path
is what it was before the call, and `PatchAndSwap` either returns a non-nil error or
does not return because a call of `log` panics. When no `member.Open()` fails and the
log lines of `patch` and of the deferred function are written to stderr, `PatchAndSwap`
returns a non-nil error; the backup then no longer exists as soon as one of the two
removals of it succeeds, and is still there when both fail. -/
theorem patchAndSwap_rollback (classify : Classifier) (flt : SwapFaults) (proc : Proc)
    (now : Int) (fs fs1 : FS) (source backupDir : String) (f0 : File)
    (members : List (String × Data))
    (hstat : stat flt.stat fs source = .ok f0) (hlogB : flt.log .backingUp = none)
    (hmk : flt.mkdirAll = none)
    (hbk : backupFile flt proc fs source (backupPath source backupDir now) = (none, fs1))
    (hlogP : flt.log .patching = none)
    (hzip : f0.data = .zip members) (hopen : flt.patch.openReader = none)
    (hfail : flt.patch.StepFails classify true members) :
    (PatchAndSwap classify flt proc now fs source backupDir).2 source = fs source ∧
    ((PatchAndSwap classify flt proc now fs source backupDir).1 = .panicked ∨
      ∃ e, (PatchAndSwap classify flt proc now fs source backupDir).1
        = .returned (some ("failed patching source: " ++ e))) ∧
    ((∀ i, flt.patch.memberOpen i = none) → (∀ s, flt.patch.log s = none) →
      flt.log .removingBackup = none →
      (∃ e, (PatchAndSwap classify flt proc now fs source backupDir).1
        = .returned (some ("failed patching source: " ++ e))) ∧
      (flt.removeAfterPatch = none ∨ flt.removeDeferred = none →
        (PatchAndSwap classify flt proc now fs source backupDir).2
          (backupPath source backupDir now) = none) ∧
      (flt.removeAfterPatch ≠ none → flt.removeDeferred ≠ none →
        ∃ b, (PatchAndSwap classify flt proc now fs source backupDir).2
          (backupPath source backupDir now) = some b ∧
          b.data = .tar source f0.mode f0.data)) := by
  have hf0 := stat_ok _ _ _ _ hstat
  have hfs1 : fs1 source = some f0 := by
    have := backupFile_other flt proc fs source (backupPath source backupDir now) source
      (Ne.symm (backupPath_ne_source source backupDir now))
    rw [hbk] at this
    exact this.trans hf0
  have hz : openZip flt.patch.openReader (fs1 source) source = .ok members := by
    cases f0 with
    | mk d u g m => simp only at hzip; subst hzip; simp [openZip, hopen, hfs1]
  obtain ⟨h1, h2⟩ := patchAndSwap_source_kept classify flt proc now fs fs1 source backupDir f0
    hstat hlogB hmk hbk hlogP
    (patch_fails_of_step_failure classify flt.patch proc fs1 source (source ++ ".new") true
      members hz hfail)
  refine ⟨h1, h2, ?_⟩
  intro hmo hplog hlogR
  obtain ⟨e, he⟩ := patch_error_of_step_failure classify flt.patch proc fs1 source
    (source ++ ".new") true members hz hplog hmo hfail
  obtain ⟨h3, h4, h5⟩ := patchAndSwap_rollback_of_error classify flt proc now fs fs1 source
    backupDir f0 e hstat hlogB hmk hbk hlogP he hlogR
  exact ⟨⟨e, h3⟩, h4, h5⟩

/-- C3, amended, witness: reading the first member of `app.jar` fails. -/
theorem patchAndSwap_rollback_witness :
    readFails.patch.StepFails flagsB true abc ∧
    (PatchAndSwap flagsB readFails root 1700000000 appJar "app.jar" "bk").2 "app.jar"
      = appJar "app.jar" ∧
    (PatchAndSwap flagsB readFails root 1700000000 appJar "app.jar" "bk").1
      = .returned (some ("failed patching source: " ++ "unexpected EOF")) ∧
    (PatchAndSwap flagsB readFails root 1700000000 appJar "app.jar" "bk").2
      (backupPath "app.jar" "bk" 1700000000) = none :=
  ⟨Or.inr (Or.inl ⟨0, ("A", .raw [1]), rfl, by decide⟩),
    (patchAndSwap_rollback flagsB readFails root 1700000000 appJar
      (backupFile readFails root appJar "app.jar" (backupPath "app.jar" "bk" 1700000000)).2
      "app.jar" "bk" (fileOf (.zip abc)) abc rfl rfl rfl rfl rfl rfl rfl
      (Or.inr (Or.inl ⟨0, ("A", .raw [1]), rfl, by decide⟩))).1,
    rfl,
    ((patchAndSwap_rollback flagsB readFails root 1700000000 appJar
      (backupFile readFails root appJar "app.jar" (backupPath "app.jar" "bk" 1700000000)).2
      "app.jar" "bk" (fileOf (.zip abc)) abc rfl rfl rfl rfl rfl rfl rfl
      (Or.inr (Or.inl ⟨0, ("A", .raw [1]), rfl, by decide⟩))).2.2
        (fun _ => rfl) (fun _ => rfl) rfl).2.1 (Or.inl rfl)⟩

/-- C5, counterexample. The call `os.Chown` on the temp file fails after backup and
rewrite succeeded: `PatchAndSwap` returns an error and the temp file stays, but the
deferred function has removed the backup. And when the log line of the deferred
function cannot be written, `log` panics: `PatchAndSwap` does not return, and the
backup stays. -/
theorem patchAndSwap_chown_failure_removes_backup :
    (PatchAndSwap flagsB chownFails root 1700000000 appJar "app.jar" "bk").1
      = .returned (some ("failed setting file owner on target: " ++ "operation not permitted")) ∧
    (∃ g, (PatchAndSwap flagsB chownFails root 1700000000 appJar "app.jar" "bk").2
      "app.jar.new" = some g) ∧
    (PatchAndSwap flagsB chownFails root 1700000000 appJar "app.jar" "bk").2
      (backupPath "app.jar" "bk" 1700000000) = none ∧
    (PatchAndSwap flagsB chownFailsNoStderr root 1700000000 appJar "app.jar" "bk").1
      = .panicked ∧
    (∃ b, (PatchAndSwap flagsB chownFailsNoStderr root 1700000000 appJar "app.jar" "bk").2
      (backupPath "app.jar" "bk" 1700000000) = some b) :=
  ⟨rfl, ⟨_, rfl⟩, rfl, rfl, ⟨_, rfl⟩⟩

/-- The body of `PatchAndSwap` when backup and rewrite succeeded and `os.Chown` or
`os.Chmod` fails: it returns an error with `success` unset, the temp file and the
backup in place and the source as before. -/
theorem patchAndSwapBody_permission_failure (classify : Classifier) (flt : SwapFaults)
    (proc : Proc) (now : Int) (fs fs1 fs2 : FS) (source backupDir : String) (f0 : File)
    (hstat : stat flt.stat fs source = .ok f0) (hlogB : flt.log .backingUp = none)
    (hmk : flt.mkdirAll = none)
    (hbk : backupFile flt proc fs source (backupPath source backupDir now) = (none, fs1))
    (hlogP : flt.log .patching = none)
    (hpatch : patch classify flt.patch proc fs1 source (source ++ ".new") true
      = (.returned none, fs2))
    (hfail : flt.chown ≠ none ∨ flt.chmod ≠ none) :
    ∃ e fsX b g,
      patchAndSwapBody classify flt proc now fs source backupDir
        = (.returned (some e), fsX, false) ∧
      fsX (source ++ ".new") = some g ∧ fsX source = fs source ∧
      fsX (backupPath source backupDir now) = some b ∧ b.data = .tar source f0.mode f0.data := by
  have hds := dest_ne_source source
  have hsrc := backupPath_ne_source source backupDir now
  have hdest := backupPath_ne_dest source backupDir now
  have hf0 := stat_ok _ _ _ _ hstat
  obtain ⟨b, hb1, hb2⟩ := backupFile_ok flt proc fs fs1 source _ f0 hf0 hbk
  obtain ⟨f, members, g, -, -, hg1, -⟩ :=
    patch_ok classify flt.patch proc fs1 fs2 source _ true hpatch
  have hfs2 : ∀ q, q ≠ source ++ ".new" → fs2 q = fs1 q := by
    intro q hq
    have := patch_source_untouched classify flt.patch proc fs1 source
      (source ++ ".new") true q hq
    rw [hpatch] at this; exact this
  have hfs1 : fs1 source = fs source := by
    have := backupFile_other flt proc fs source (backupPath source backupDir now) source
      (Ne.symm hsrc)
    rw [hbk] at this; exact this
  unfold patchAndSwapBody
  simp only [hstat, hmk, hbk, hpatch, log_ok _ hlogB, log_ok _ hlogP, Bool.false_eq_true,
    if_false]
  unfold chown chmod
  cases hco : flt.chown with
  | some e =>
    exact ⟨_, fs2, b, g, rfl, hg1, (hfs2 _ (Ne.symm hds)).trans hfs1,
      (hfs2 _ hdest).trans hb1, hb2⟩
  | none =>
    cases hcm : flt.chmod with
    | none => rcases hfail with h | h <;> [exact absurd hco h; exact absurd hcm h]
    | some e =>
      simp only [hg1]
      refine ⟨_, _, b, { g with uid := f0.uid, gid := f0.gid }, rfl, FS.set_same _ _ _, ?_, ?_,
        hb2⟩
      · rw [FS.set_other _ _ _ _ (Ne.symm hds), hfs2 _ (Ne.symm hds), hfs1]
      · rw [FS.set_other _ _ _ _ hdest, hfs2 _ hdest, hb1]

/-- C5, amended. Failure edge on permission restore: if backup and rewrite succeeded
and `os.Chown` or `os.Chmod` on the temp file fails, then at the end the temp file is
still in place and the source file is unchanged. When the log line of the deferred
function is written, `PatchAndSwap` returns a non-nil error and the deferred function
removes the backup, which stays only when that removal fails; when the log line cannot
be written, `log` panics, `PatchAndSwap` does not return and the backup stays. -/
theorem patchAndSwap_permission_failure (classify : Classifier) (flt : SwapFaults)
    (proc : Proc) (now : Int) (fs fs1 fs2 : FS) (source backupDir : String) (f0 : File)
    (hstat : stat flt.stat fs source = .ok f0) (hlogB : flt.log .backingUp = none)
    (hmk : flt.mkdirAll = none)
    (hbk : backupFile flt proc fs source (backupPath source backupDir now) = (none, fs1))
    (hlogP : flt.log .patching = none)
    (hpatch : patch classify flt.patch proc fs1 source (source ++ ".new") true
      = (.returned none, fs2))
    (hfail : flt.chown ≠ none ∨ flt.chmod ≠ none) :
    (∃ g, (PatchAndSwap classify flt proc now fs source backupDir).2 (source ++ ".new")
      = some g) ∧
    (PatchAndSwap classify flt proc now fs source backupDir).2 source = fs source ∧
    (flt.log .removingBackup = none →
      (∃ e, (PatchAndSwap classify flt proc now fs source backupDir).1 = .returned (some e)) ∧
      (flt.removeDeferred = none →
        (PatchAndSwap classify flt proc now fs source backupDir).2
          (backupPath source backupDir now) = none) ∧
      (flt.removeDeferred ≠ none →
        ∃ b, (PatchAndSwap classify flt proc now fs source backupDir).2
          (backupPath source backupDir now) = some b ∧
          b.data = .tar source f0.mode f0.data)) ∧
    (flt.log .removingBackup ≠ none →
      (PatchAndSwap classify flt proc now fs source backupDir).1 = .panicked ∧
      ∃ b, (PatchAndSwap classify flt proc now fs source backupDir).2
        (backupPath source backupDir now) = some b ∧ b.data = .tar source f0.mode f0.data) := by
  have hds := dest_ne_source source
  have hsrc := backupPath_ne_source source backupDir now
  have hdest := backupPath_ne_dest source backupDir now
  obtain ⟨e, fsX, b, g, hbody, hX1, hX2, hX3, hb⟩ :=
    patchAndSwapBody_permission_failure classify flt proc now fs fs1 fs2 source backupDir f0
      hstat hlogB hmk hbk hlogP hpatch hfail
  unfold PatchAndSwap
  rw [hbody]
  simp only [Bool.false_eq_true, if_false]
  cases hl : flt.log .removingBackup with
  | some x =>
    have hlog : log (some x) = true := rfl
    simp only [hlog, if_true]
    exact ⟨⟨g, hX1⟩, hX2, fun h => absurd h (by simp), fun _ => ⟨trivial, b, hX3, hb⟩⟩
  | none =>
    have hlog : log (none : Option String) = false := rfl
    simp only [hlog, Bool.false_eq_true, if_false]
    refine ⟨⟨g, ?_⟩, ?_, fun _ => ⟨⟨e, rfl⟩, ?_, ?_⟩, fun h => absurd rfl h⟩
    · rw [remove_other _ _ _ _ (Ne.symm hdest), hX1]
    · rw [remove_other _ _ _ _ (Ne.symm hsrc), hX2]
    · intro h; rw [h]; exact remove_same _ _
    · intro h
      cases hr : flt.removeDeferred with
      | none => exact absurd hr h
      | some x => exact ⟨b, by simp [remove, hX3], hb⟩

/-- C5, amended, witness: `os.Chown` fails on the temp file of `app.jar`. -/
theorem patchAndSwap_permission_failure_witness :
    (chownFails.chown ≠ none ∨ chownFails.chmod ≠ none) ∧
    (∃ g, (PatchAndSwap flagsB chownFails root 1700000000 appJar "app.jar" "bk").2
      ("app.jar" ++ ".new") = some g) ∧
    (PatchAndSwap flagsB chownFails root 1700000000 appJar "app.jar" "bk").2 "app.jar"
      = appJar "app.jar" ∧
    (chownFails.log .removingBackup = none →
      (∃ e, (PatchAndSwap flagsB chownFails root 1700000000 appJar "app.jar" "bk").1
        = .returned (some e)) ∧
      (chownFails.removeDeferred = none →
        (PatchAndSwap flagsB chownFails root 1700000000 appJar "app.jar" "bk").2
          (backupPath "app.jar" "bk" 1700000000) = none) ∧
      (chownFails.removeDeferred ≠ none →
        ∃ b, (PatchAndSwap flagsB chownFails root 1700000000 appJar "app.jar" "bk").2
          (backupPath "app.jar" "bk" 1700000000) = some b ∧
          b.data = .tar "app.jar" (fileOf (.zip abc)).mode (fileOf (.zip abc)).data)) ∧
    (chownFails.log .removingBackup ≠ none →
      (PatchAndSwap flagsB chownFails root 1700000000 appJar "app.jar" "bk").1 = .panicked ∧
      ∃ b, (PatchAndSwap flagsB chownFails root 1700000000 appJar "app.jar" "bk").2
        (backupPath "app.jar" "bk" 1700000000) = some b ∧
        b.data = .tar "app.jar" (fileOf (.zip abc)).mode (fileOf (.zip abc)).data) :=
  ⟨Or.inl (by decide),
    patchAndSwap_permission_failure flagsB chownFails root 1700000000 appJar
      (backupFile chownFails root appJar "app.jar" (backupPath "app.jar" "bk" 1700000000)).2
      (patch flagsB chownFails.patch root
        (backupFile chownFails root appJar "app.jar" (backupPath "app.jar" "bk" 1700000000)).2
        "app.jar" ("app.jar" ++ ".new") true).2
      "app.jar" "bk" (fileOf (.zip abc)) rfl rfl rfl rfl rfl rfl (Or.inl (by decide))⟩

/-! ## Where the code departs from the specification -/

/-- C2, counterexample. Nested detection does not reach the top level. `outer.jar`
holds `inner.jar`, which holds a flagged class: the finding is reported under
`outer.jar::inner.jar`, but the loop of the invocation for `outer.jar` ends with its
`vulnerable` still false, and no remediation is requested for `outer.jar`. -/
theorem handleJar_nested_verdict_not_propagated :
    findings (handleJar patchingConfig flagsBadClass noScanFaults (swapOnDisk flagsBadClass)
      "outer.jar" (.zip outerMembers) outerDisk).events
      = [("outer.jar::inner.jar", "Bad.class")] ∧
    (handleJar.members (plainConfig []) flagsBadClass noScanFaults (swapOnDisk flagsBadClass)
      "outer.jar" outerMembers 0 false outerDisk).2 = false ∧
    "outer.jar" ∉ patchCalls (handleJar patchingConfig flagsBadClass noScanFaults
      (swapOnDisk flagsBadClass) "outer.jar" (.zip outerMembers) outerDisk).events := by
  refine ⟨by decide, by decide, by decide⟩

/-- C4. Remediation is requested for a composite nested path. On `outer.jar` holding
`inner.jar` with a flagged class, the one call of `PatchAndSwap` is made with
`outer.jar::inner.jar`; that path names no file, the call fails and the scan ends. -/
theorem handleJar_patches_composite_path :
    patchCalls (handleJar patchingConfig flagsBadClass noScanFaults (swapOnDisk flagsBadClass)
      "outer.jar" (.zip outerMembers) outerDisk).events = ["outer.jar::inner.jar"] ∧
    (handleJar patchingConfig flagsBadClass noScanFaults (swapOnDisk flagsBadClass)
      "outer.jar" (.zip outerMembers) outerDisk).events
      = [.finding "outer.jar::inner.jar" "Bad.class" "log4j",
         .patchAndSwap "outer.jar::inner.jar" "bk",
         .failedToPatch "outer.jar::inner.jar"
           "failed stat-ing source file: stat outer.jar::inner.jar: no such file or directory"] ∧
    (handleJar patchingConfig flagsBadClass noScanFaults (swapOnDisk flagsBadClass)
      "outer.jar" (.zip outerMembers) outerDisk).exited = true := by
  refine ⟨by decide, by decide, by decide⟩

/-- C8. The backup name can begin with a dot. For the source `/./x` the trimmed path is
`./x`, still with a leading dot and slash, and the file-name component is `._x`; for
`./../x` they are `../x` and `.._x`. The backup file name never holds a `/`. -/
theorem backupFileName_leading_dot :
    sourceWithLeadingDotsAndSlashesTrimed "/./x" = "./x" ∧
    backupFileName "/./x" 1700000000 = "._x-1700000000.tar" ∧
    backupPath "/./x" "/var/backups" 1700000000 = "/var/backups/._x-1700000000.tar" ∧
    sourceWithLeadingDotsAndSlashesTrimed "./../x" = "../x" ∧
    backupFileName "./../x" 1700000000 = ".._x-1700000000.tar" ∧
    (∀ (s : String) (t : Int), '/' ∉ (backupFileName s t).toList) :=
  ⟨by decide, by decide, by decide, by decide, by decide, backupFileName_no_slash⟩

/-- C10. Excluding a regular file hides its later siblings. In the directory `r` with
`a.jar` and `b.jar`, excluding `r/a.jar` makes the callback return `SkipDir` for a
non-directory, which ends the walk of `r`: `b.jar` is never handed to `handleJar`,
although neither it nor `r` is excluded. Without the exclusion both are inspected. -/
theorem walk_excluded_file_skips_siblings :
    Has (verboseConfig ["r/a.jar"]).excludes "r/b.jar" = false ∧
    Has (verboseConfig ["r/a.jar"]).excludes "r" = false ∧
    inspected (scanRoots (verboseConfig ["r/a.jar"]) flagsBadClass noWalkFaults failingSwap
      [("r", some twoJars)] ()).events = [] ∧
    inspected (scanRoots (verboseConfig []) flagsBadClass noWalkFaults failingSwap
      [("r", some twoJars)] ()).events = ["r/a.jar", "r/b.jar"] := by
  refine ⟨by decide, by decide, by decide, by decide⟩

end Log4jScanner
